import Mathlib

/-!
# Verification of the opencode-oci-provider translation engine

Shallow embedding of the request/response translation engine of the
`opencode-oci-provider` repository (main implementation file: the
`OCIChatLanguageModelV2` provider source).  Pure functions of the source are
translated into executable Lean definitions; the stateful streaming loops are
translated into explicit state-passing folds.  JavaScript strings are `String`,
JavaScript numbers that only ever get carried around (sampling parameters) are
`Rat`, JSON values are the inductive `Json` below, and a JS value that may be
`undefined` is an `Option`.
-/

set_option maxHeartbeats 1000000
set_option maxRecDepth 4000

namespace OCIProvider

/-! ## JSON values

JSON values as passed around by the provider.  JS objects are insertion-ordered
lists of key/value pairs (mirroring `Object.entries`); keys are unique in any
object produced by a JS object literal, but none of the definitions below need
that assumption.
-/

inductive Json where
  | null : Json
  | bool (b : Bool) : Json
  | num (q : Rat) : Json
  | str (s : String) : Json
  | arr (elems : List Json) : Json
  | obj (fields : List (String × Json)) : Json
deriving Repr, Inhabited

namespace Json

mutual

/-- Structural equality test on JSON values. -/
def beq : Json → Json → Bool
  | .null, .null => true
  | .bool a, .bool b => a = b
  | .num a, .num b => a = b
  | .str a, .str b => a = b
  | .arr a, .arr b => beqList a b
  | .obj a, .obj b => beqFields a b
  | _, _ => false

def beqList : List Json → List Json → Bool
  | [], [] => true
  | a :: as, b :: bs => beq a b && beqList as bs
  | _, _ => false

def beqFields : List (String × Json) → List (String × Json) → Bool
  | [], [] => true
  | (ka, va) :: as, (kb, vb) :: bs => ka = kb && beq va vb && beqFields as bs
  | _, _ => false

end

mutual

theorem beq_iff : ∀ a b : Json, beq a b = true ↔ a = b
  | .null, b => by cases b <;> simp [beq]
  | .bool x, b => by cases b <;> simp [beq]
  | .num x, b => by cases b <;> simp [beq]
  | .str x, b => by cases b <;> simp [beq]
  | .arr xs, b => by
      cases b <;> simp [beq]
      exact beqList_iff xs _
  | .obj xs, b => by
      cases b <;> simp [beq]
      exact beqFields_iff xs _

theorem beqList_iff : ∀ a b : List Json, beqList a b = true ↔ a = b
  | [], b => by cases b <;> simp [beqList]
  | x :: xs, b => by
      cases b with
      | nil => simp [beqList]
      | cons y ys =>
          simp only [beqList, Bool.and_eq_true, List.cons.injEq]
          exact and_congr (beq_iff x y) (beqList_iff xs ys)

theorem beqFields_iff : ∀ a b : List (String × Json), beqFields a b = true ↔ a = b
  | [], b => by cases b <;> simp [beqFields]
  | (k, v) :: xs, b => by
      cases b with
      | nil => simp [beqFields]
      | cons y ys =>
          obtain ⟨k', v'⟩ := y
          simp only [beqFields, Bool.and_eq_true, List.cons.injEq, Prod.mk.injEq,
            decide_eq_true_eq]
          rw [beq_iff v v', beqFields_iff xs ys, and_assoc]

end

instance : DecidableEq Json := fun a b =>
  decidable_of_iff (beq a b = true) (beq_iff a b)

/-- JS property access `o[k]` on an object: the first binding of `k`
(JS object literals have unique keys, so first = only). `undefined` is `none`;
property access on a non-object JSON value yields `undefined`. -/
def get? : Json → String → Option Json
  | .obj fields, k => (fields.find? (fun p => p.1 = k)).map (·.2)
  | _, _ => none

/-- JS truthiness of a JSON value (`undefined` handled by `Option.elim` at
call sites): `null`, `false`, `0` and `""` are falsy. -/
def truthy : Json → Bool
  | .null => false
  | .bool b => b
  | .num q => q ≠ 0
  | .str s => s ≠ ""
  | .arr _ => true
  | .obj _ => true

/-- JS truthiness of a possibly-`undefined` value. -/
def otruthy : Option Json → Bool
  | none => false
  | some j => j.truthy

/-- `a || b` on possibly-`undefined` JSON values. -/
def orElseJs (a b : Option Json) : Option Json :=
  if otruthy a then a else b

def asString? : Option Json → Option String
  | some (.str s) => some s
  | _ => none

def asArray? : Option Json → Option (List Json)
  | some (.arr es) => some es
  | _ => none

def isStr : Json → Bool
  | .str _ => true
  | _ => false

end Json

/-! ## `mapFinishReason`

Direct transcription of `mapFinishReason` from the provider source.  The
canonical finish reasons of the AI SDK are modelled as an enumeration. -/

inductive FinishReason where
  | stop | length | toolCalls | contentFilter | error | other
deriving Repr, DecidableEq, Inhabited

/-- `mapFinishReason(raw)`: the `switch` over the raw vendor finish code.
`none` models the `undefined` argument. -/
def mapFinishReason : Option String → FinishReason
  | some "MAX_TOKENS" => .length
  | some "length" => .length
  | some "COMPLETE" => .stop
  | some "stop" => .stop
  | some "STOP" => .stop
  | some "TOOL_CALL" => .toolCalls
  | some "tool_calls" => .toolCalls
  | some "TOOL_USE" => .toolCalls
  | some "CONTENT_FILTER" => .contentFilter
  | some "content_filter" => .contentFilter
  | _ => .stop

/-! ## Capability registry (`SWEPreset`, `SWE_PRESETS`, `getSWEPreset`)

`supportsStopSequences` and `supportsReasoning` are optional in the TS
interface, hence `Option Bool` (`none` = property absent). -/

structure SWEPreset where
  temperature : Rat
  topP : Rat
  frequencyPenalty : Rat
  presencePenalty : Rat
  supportsTools : Bool
  supportsPenalties : Bool
  supportsStopSequences : Option Bool := none
  supportsReasoning : Option Bool := none
deriving Repr, DecidableEq, Inhabited

/-- The `SWE_PRESETS` record: lookup by vendor-prefix key, falling back to the
`'default'` entry for unknown keys (`SWE_PRESETS[provider] || SWE_PRESETS['default']`). -/
def SWE_PRESETS (provider : String) : SWEPreset :=
  if provider = "cohere" then
    { temperature := 0.2, topP := 0.9, frequencyPenalty := 0, presencePenalty := 0,
      supportsTools := true, supportsPenalties := true, supportsReasoning := some false }
  else if provider = "google" then
    { temperature := 0.1, topP := 0.95, frequencyPenalty := 0, presencePenalty := 0,
      supportsTools := true, supportsPenalties := false, supportsReasoning := some false }
  else if provider = "xai" then
    { temperature := 0.1, topP := 0.9, frequencyPenalty := 0, presencePenalty := 0,
      supportsTools := true, supportsPenalties := false,
      supportsStopSequences := some false, supportsReasoning := some false }
  else if provider = "meta" then
    { temperature := 0.2, topP := 0.9, frequencyPenalty := 0, presencePenalty := 0,
      supportsTools := true, supportsPenalties := true, supportsReasoning := some false }
  else if provider = "openai" then
    { temperature := 0.1, topP := 0.9, frequencyPenalty := 0, presencePenalty := 0,
      supportsTools := true, supportsPenalties := true, supportsReasoning := some true }
  else
    { temperature := 0.2, topP := 0.9, frequencyPenalty := 0, presencePenalty := 0,
      supportsTools := true, supportsPenalties := true, supportsReasoning := some false }

/-- JS `s.startsWith(pre)`. -/
def jsStartsWith (s pre : String) : Bool := pre.data.isPrefixOf s.data

/-- JS `s.endsWith(suf)`. -/
def jsEndsWith (s suf : String) : Bool := suf.data.isSuffixOf s.data

/-- JS `s.includes(sub)`. -/
def jsIncludes (s sub : String) : Bool := decide (sub.data <:+: s.data)

/-- `modelId.split('.')[0]`: the characters before the first `'.'`. -/
def splitDotHead (s : String) : String := ⟨s.data.takeWhile (fun c => c ≠ '.')⟩

/-- `getModelProvider`: first dot-separated component, `'default'` when that
component is empty (`prefix || 'default'`). -/
def getModelProvider (modelId : String) : String :=
  let pre := splitDotHead modelId
  if pre = "" then "default" else pre

/-- `getSWEPreset(modelId)`: base preset from the registry plus the
`flash-lite`, xAI-variant and Cohere-reasoning overrides, in source order. -/
def getSWEPreset (modelId : String) : SWEPreset :=
  let basePreset := SWE_PRESETS (getModelProvider modelId)
  if jsIncludes modelId "flash-lite" then
    { basePreset with supportsReasoning := some false }
  else if jsStartsWith modelId "xai." then
    let isReasoningModel :=
      (jsEndsWith modelId "-reasoning" || jsIncludes modelId "grok-3-mini") &&
        !jsIncludes modelId "-non-reasoning"
    { basePreset with supportsReasoning := some isReasoningModel }
  else if jsIncludes modelId "reasoning" then
    { basePreset with supportsReasoning := some true }
  else
    basePreset

/-! ## Schema sanitizer (`cleanJsonSchema`)

`cleanJsonSchema` first calls `ensureJsonSchema`, which converts Zod v4 schema
objects.  A Zod schema is not a JSON value (it carries functions); for plain
JSON inputs the Zod conversion either is skipped or throws inside the
`try`/`catch` and the schema is returned unchanged, so on JSON values
`ensureJsonSchema` is the identity and is modelled away.

The recursive walk is transcribed directly:
* primitives and `null` are returned unchanged (`!schema || typeof schema !== 'object'`);
* an object node drops unsupported keywords and the `pattern`/`format`
  constraints (only when the value is a string and the node's own `type`
  property is the string `"string"`), recursing into object values and mapping
  arrays element-wise (recursing into elements that are objects *or* arrays,
  since `typeof [] === 'object'` in JS);
* an array at the *top* of a call is iterated via `Object.entries`, whose keys
  are the decimal indices `"0"`, `"1"`, …, and `schema.type` is `undefined`
  (`cleanIndexed`); the result is a plain object, exactly as in JS.
-/

def UNSUPPORTED_KEYWORDS : List String :=
  ["$schema", "$ref", "ref", "$defs", "definitions", "$id", "$comment",
   "additionalProperties", "propertyNames", "title", "examples", "default",
   "const", "minLength", "maxLength", "minItems", "maxItems",
   "exclusiveMinimum", "exclusiveMaximum"]

/-- `schema.type` of an object node: first binding of the key `"type"`. -/
def lookupField (fields : List (String × Json)) (k : String) : Option Json :=
  (fields.find? (fun p => p.1 = k)).map (·.2)

mutual

/-- `cleanJsonSchema(schema)`. -/
def cleanJsonSchema : Json → Json
  | .obj fields => .obj (cleanFields (lookupField fields "type") fields)
  | .arr elems => .obj (cleanIndexed none 0 elems)
  | j => j

/-- The `for (const [key, value] of Object.entries(schema))` loop; `nodeType`
is `schema.type` of the node being cleaned. -/
def cleanFields (nodeType : Option Json) : List (String × Json) → List (String × Json)
  | [] => []
  | (k, v) :: rest =>
      if k ∈ UNSUPPORTED_KEYWORDS then cleanFields nodeType rest
      else if k = "pattern" ∧ v.isStr ∧ nodeType = some (.str "string") then
        cleanFields nodeType rest
      else if k = "format" ∧ v.isStr ∧ nodeType = some (.str "string") then
        cleanFields nodeType rest
      else
        (k, match v with
            | .obj fs => cleanJsonSchema (.obj fs)
            | .arr es => .arr (cleanArrElems es)
            | x => x) :: cleanFields nodeType rest

/-- The same loop when the cleaned node is a JS array: `Object.entries` yields
the decimal index strings as keys, and `schema.type` is `undefined`. -/
def cleanIndexed (nodeType : Option Json) (i : Nat) : List Json → List (String × Json)
  | [] => []
  | v :: rest =>
      if toString i ∈ UNSUPPORTED_KEYWORDS then cleanIndexed nodeType (i + 1) rest
      else if toString i = "pattern" ∧ v.isStr ∧ nodeType = some (.str "string") then
        cleanIndexed nodeType (i + 1) rest
      else if toString i = "format" ∧ v.isStr ∧ nodeType = some (.str "string") then
        cleanIndexed nodeType (i + 1) rest
      else
        (toString i, match v with
            | .obj fs => cleanJsonSchema (.obj fs)
            | .arr es => .arr (cleanArrElems es)
            | x => x) :: cleanIndexed nodeType (i + 1) rest

/-- `value.map(item => item && typeof item === 'object' ? cleanJsonSchema(item) : item)`. -/
def cleanArrElems : List Json → List Json
  | [] => []
  | item :: rest =>
      (match item with
        | .obj fs => cleanJsonSchema (.obj fs)
        | .arr es => cleanJsonSchema (.arr es)
        | x => x) :: cleanArrElems rest

end

/-- The per-value recursion performed on a kept binding's value. -/
def cleanValue : Json → Json
  | .obj fs => cleanJsonSchema (.obj fs)
  | .arr es => .arr (cleanArrElems es)
  | x => x

/-- The decision made for one `[key, value]` entry of the cleaned node:
`none` when the binding is dropped, otherwise the cleaned binding. -/
def cleanEntry (nodeType : Option Json) (k : String) (v : Json) :
    Option (String × Json) :=
  if k ∈ UNSUPPORTED_KEYWORDS then none
  else if k = "pattern" ∧ v.isStr ∧ nodeType = some (.str "string") then none
  else if k = "format" ∧ v.isStr ∧ nodeType = some (.str "string") then none
  else some (k, cleanValue v)

theorem cleanFields_cons (t : Option Json) (k : String) (v : Json)
    (rest : List (String × Json)) :
    cleanFields t ((k, v) :: rest) =
      if k ∈ UNSUPPORTED_KEYWORDS then cleanFields t rest
      else if k = "pattern" ∧ v.isStr ∧ t = some (.str "string") then cleanFields t rest
      else if k = "format" ∧ v.isStr ∧ t = some (.str "string") then cleanFields t rest
      else (k, cleanValue v) :: cleanFields t rest := by
  cases v <;> simp only [cleanFields, cleanValue]

theorem cleanFields_eq_filterMap (t : Option Json) (fs : List (String × Json)) :
    cleanFields t fs = fs.filterMap (fun p => cleanEntry t p.1 p.2) := by
  induction fs with
  | nil => simp [cleanFields]
  | cons p rest ih =>
      obtain ⟨k, v⟩ := p
      by_cases h1 : k ∈ UNSUPPORTED_KEYWORDS
      · rw [cleanFields_cons, if_pos h1, ih,
          List.filterMap_cons_none (by simp [cleanEntry, h1])]
      · by_cases h2 : k = "pattern" ∧ v.isStr ∧ t = some (.str "string")
        · rw [cleanFields_cons, if_neg h1, if_pos h2, ih,
            List.filterMap_cons_none (by simp [cleanEntry, h1, h2])]
        · by_cases h3 : k = "format" ∧ v.isStr ∧ t = some (.str "string")
          · rw [cleanFields_cons, if_neg h1, if_neg h2, if_pos h3, ih,
              List.filterMap_cons_none (by simp [cleanEntry, h1, h2, h3])]
          · rw [cleanFields_cons, if_neg h1, if_neg h2, if_neg h3, ih,
              List.filterMap_cons_some (b := (k, cleanValue v))
                (by simp [cleanEntry, h1, h2, h3])]

theorem cleanIndexed_cons (t : Option Json) (i : Nat) (v : Json) (rest : List Json) :
    cleanIndexed t i (v :: rest) =
      if toString i ∈ UNSUPPORTED_KEYWORDS then cleanIndexed t (i + 1) rest
      else if toString i = "pattern" ∧ v.isStr ∧ t = some (.str "string") then
        cleanIndexed t (i + 1) rest
      else if toString i = "format" ∧ v.isStr ∧ t = some (.str "string") then
        cleanIndexed t (i + 1) rest
      else (toString i, cleanValue v) :: cleanIndexed t (i + 1) rest := by
  cases v <;> simp only [cleanIndexed, cleanValue]

/-! ### Decimal index keys never collide with schema keywords -/

theorem digitChar_isDigit {m : Nat} (h : m < 10) : (Nat.digitChar m).isDigit := by
  interval_cases m <;> decide

theorem toDigitsCore_digits (fuel : Nat) : ∀ (n : Nat) (ds : List Char),
    (∀ c ∈ ds, c.isDigit) → ∀ c ∈ Nat.toDigitsCore 10 fuel n ds, c.isDigit := by
  induction fuel with
  | zero => intro n ds hds; simpa [Nat.toDigitsCore] using hds
  | succ f ih =>
      intro n ds hds
      rw [Nat.toDigitsCore]
      split
      · intro c hc
        rcases List.mem_cons.mp hc with h | h
        · subst h; exact digitChar_isDigit (Nat.mod_lt _ (by norm_num))
        · exact hds c h
      · refine ih _ _ ?_
        intro c hc
        rcases List.mem_cons.mp hc with h | h
        · subst h; exact digitChar_isDigit (Nat.mod_lt _ (by norm_num))
        · exact hds c h

theorem toString_nat_digits (n : Nat) : ∀ c ∈ (toString n).data, c.isDigit := by
  have h := toDigitsCore_digits (n + 1) n [] (by simp)
  simpa [toString, Nat.repr, Nat.toDigits, List.asString] using h

/-- A decimal index key is never one of the schema keywords nor
`"pattern"`/`"format"` (all of which start with a non-digit character). -/
theorem nat_key_safe (i : Nat) :
    toString i ∉ UNSUPPORTED_KEYWORDS ∧ toString i ≠ "pattern" ∧ toString i ≠ "format" := by
  have hd := toString_nat_digits i
  refine ⟨?_, ?_, ?_⟩
  · intro hmem
    simp only [UNSUPPORTED_KEYWORDS, List.mem_cons, List.not_mem_nil, or_false] at hmem
    rcases hmem with h|h|h|h|h|h|h|h|h|h|h|h|h|h|h|h|h|h|h <;>
      (rw [h] at hd; revert hd; decide)
  · intro h; rw [h] at hd; revert hd; decide
  · intro h; rw [h] at hd; revert hd; decide

/-! ### Idempotence of the sanitizer -/

theorem cleanValue_isStr (v : Json) : (cleanValue v).isStr = v.isStr := by
  cases v <;> simp [cleanValue, cleanJsonSchema, Json.isStr]

theorem cleanValue_eq_str_iff (v : Json) :
    cleanValue v = .str "string" ↔ v = .str "string" := by
  cases v <;> simp [cleanValue, cleanJsonSchema]

theorem lookupField_cons (k k₀ : String) (v : Json) (rest : List (String × Json)) :
    lookupField ((k, v) :: rest) k₀ = if k = k₀ then some v else lookupField rest k₀ := by
  by_cases h : k = k₀ <;> simp [lookupField, List.find?, h]

/-- Cleaning never changes whether the node's own `type` property is the
string `"string"`. -/
theorem lookupType_cleanFields (t : Option Json) (fs : List (String × Json)) :
    lookupField (cleanFields t fs) "type" = some (.str "string") ↔
      lookupField fs "type" = some (.str "string") := by
  induction fs with
  | nil => simp [cleanFields]
  | cons p rest ih =>
      obtain ⟨k, v⟩ := p
      rw [cleanFields_cons]
      by_cases hk : k = "type"
      · subst hk
        rw [if_neg (by decide), if_neg (by simp), if_neg (by simp),
          lookupField_cons, if_pos rfl, lookupField_cons, if_pos rfl]
        simpa using cleanValue_eq_str_iff v
      · by_cases h1 : k ∈ UNSUPPORTED_KEYWORDS
        · rw [if_pos h1, ih, lookupField_cons, if_neg hk]
        · rw [if_neg h1]
          by_cases h2 : k = "pattern" ∧ v.isStr ∧ t = some (.str "string")
          · rw [if_pos h2, ih, lookupField_cons, if_neg hk]
          · rw [if_neg h2]
            by_cases h3 : k = "format" ∧ v.isStr ∧ t = some (.str "string")
            · rw [if_pos h3, ih, lookupField_cons, if_neg hk]
            · rw [if_neg h3, lookupField_cons, if_neg hk, lookupField_cons, if_neg hk]
              exact ih

mutual

theorem cleanJsonSchema_idem : ∀ j : Json,
    cleanJsonSchema (cleanJsonSchema j) = cleanJsonSchema j
  | .null => rfl
  | .bool _ => rfl
  | .num _ => rfl
  | .str _ => rfl
  | .obj fs => by
      simp only [cleanJsonSchema]
      exact congrArg Json.obj (cleanFields_idem fs _ _ (lookupType_cleanFields _ _))
  | .arr es => by
      simp only [cleanJsonSchema]
      exact congrArg Json.obj (cleanIndexed_fixed es _ 0 _)

theorem cleanValue_idem : ∀ v : Json, cleanValue (cleanValue v) = cleanValue v
  | .null => rfl
  | .bool _ => rfl
  | .num _ => rfl
  | .str _ => rfl
  | .obj fs => by
      simp only [cleanValue, cleanJsonSchema]
      exact congrArg Json.obj (cleanFields_idem fs _ _ (lookupType_cleanFields _ _))
  | .arr es => by
      simp only [cleanValue]
      exact congrArg Json.arr (cleanArrElems_idem es)

theorem cleanFields_idem : ∀ (fs : List (String × Json)) (t t' : Option Json),
    ((t' = some (.str "string")) ↔ (t = some (.str "string"))) →
    cleanFields t' (cleanFields t fs) = cleanFields t fs
  | [], _, _ => fun _ => rfl
  | (k, v) :: rest, t, t' => fun hiff => by
      rw [cleanFields_cons]
      by_cases h1 : k ∈ UNSUPPORTED_KEYWORDS
      · rw [if_pos h1]; exact cleanFields_idem rest t t' hiff
      · rw [if_neg h1]
        by_cases h2 : k = "pattern" ∧ v.isStr ∧ t = some (.str "string")
        · rw [if_pos h2]; exact cleanFields_idem rest t t' hiff
        · rw [if_neg h2]
          by_cases h3 : k = "format" ∧ v.isStr ∧ t = some (.str "string")
          · rw [if_pos h3]; exact cleanFields_idem rest t t' hiff
          · rw [if_neg h3, cleanFields_cons, if_neg h1]
            have h2' : ¬(k = "pattern" ∧ (cleanValue v).isStr ∧
                t' = some (.str "string")) := by
              rw [cleanValue_isStr]
              rintro ⟨hk, hv, ht⟩
              exact h2 ⟨hk, hv, hiff.mp ht⟩
            have h3' : ¬(k = "format" ∧ (cleanValue v).isStr ∧
                t' = some (.str "string")) := by
              rw [cleanValue_isStr]
              rintro ⟨hk, hv, ht⟩
              exact h3 ⟨hk, hv, hiff.mp ht⟩
            rw [if_neg h2', if_neg h3', cleanValue_idem v,
              cleanFields_idem rest t t' hiff]

theorem cleanIndexed_fixed : ∀ (es : List Json) (t : Option Json) (i : Nat)
    (t' : Option Json), cleanFields t' (cleanIndexed t i es) = cleanIndexed t i es
  | [], _, _, _ => rfl
  | v :: rest, t, i, t' => by
      obtain ⟨h1, h2, h3⟩ := nat_key_safe i
      rw [cleanIndexed_cons, if_neg h1,
        if_neg (fun h => h2 h.1), if_neg (fun h => h3 h.1),
        cleanFields_cons, if_neg h1,
        if_neg (fun h => h2 h.1), if_neg (fun h => h3 h.1),
        cleanValue_idem v, cleanIndexed_fixed rest t (i + 1) t']

theorem cleanArrElems_idem : ∀ es : List Json,
    cleanArrElems (cleanArrElems es) = cleanArrElems es
  | [] => rfl
  | item :: rest => by
      cases item with
      | obj fs =>
          show Json.obj (cleanFields
              (lookupField (cleanFields (lookupField fs "type") fs) "type")
              (cleanFields (lookupField fs "type") fs)) ::
              cleanArrElems (cleanArrElems rest) =
            Json.obj (cleanFields (lookupField fs "type") fs) :: cleanArrElems rest
          rw [cleanFields_idem fs _ _ (lookupType_cleanFields _ _),
            cleanArrElems_idem rest]
      | arr es =>
          show Json.obj (cleanFields
              (lookupField (cleanIndexed none 0 es) "type")
              (cleanIndexed none 0 es)) ::
              cleanArrElems (cleanArrElems rest) =
            Json.obj (cleanIndexed none 0 es) :: cleanArrElems rest
          rw [cleanIndexed_fixed es none 0 _, cleanArrElems_idem rest]
      | null =>
          show Json.null :: cleanArrElems (cleanArrElems rest) =
            Json.null :: cleanArrElems rest
          rw [cleanArrElems_idem rest]
      | bool b =>
          show Json.bool b :: cleanArrElems (cleanArrElems rest) =
            Json.bool b :: cleanArrElems rest
          rw [cleanArrElems_idem rest]
      | num q =>
          show Json.num q :: cleanArrElems (cleanArrElems rest) =
            Json.num q :: cleanArrElems rest
          rw [cleanArrElems_idem rest]
      | str s =>
          show Json.str s :: cleanArrElems (cleanArrElems rest) =
            Json.str s :: cleanArrElems rest
          rw [cleanArrElems_idem rest]

end

inductive ModelFamily where
  | cohere | cohereV2 | generic
deriving Repr, DecidableEq, Inhabited

/-- `getModelFamily(modelId)`. -/
def getModelFamily (modelId : String) : ModelFamily :=
  if jsStartsWith modelId "cohere." then
    if jsIncludes modelId "command-a" then .cohereV2 else .cohere
  else
    .generic

/-! ## `JSON.stringify`

A JSON serializer mirroring `JSON.stringify` on JSON values (the provider only
ever stringifies plain JSON data).  JS number formatting is modelled by `Rat`
printing; none of the verified properties inspect the digits of a serialized
number. -/

def escapeJsonChar (c : Char) : String :=
  if c = '"' then "\\\""
  else if c = '\\' then "\\\\"
  else if c = '\n' then "\\n"
  else if c = '\r' then "\\r"
  else if c = '\t' then "\\t"
  else String.singleton c

def escapeJson (s : String) : String := String.join (s.data.map escapeJsonChar)

mutual

def jsonStringify : Json → String
  | .null => "null"
  | .bool true => "true"
  | .bool false => "false"
  | .num q => toString q
  | .str s => "\"" ++ escapeJson s ++ "\""
  | .arr es => "[" ++ jsonStringifyElems es ++ "]"
  | .obj fs => "\x7b" ++ jsonStringifyFields fs ++ "\x7d"

def jsonStringifyElems : List Json → String
  | [] => ""
  | [e] => jsonStringify e
  | e :: rest => jsonStringify e ++ "," ++ jsonStringifyElems rest

def jsonStringifyFields : List (String × Json) → String
  | [] => ""
  | [(k, v)] => "\"" ++ escapeJson k ++ "\":" ++ jsonStringify v
  | (k, v) :: rest =>
      "\"" ++ escapeJson k ++ "\":" ++ jsonStringify v ++ "," ++ jsonStringifyFields rest

end

/-! ## Canonical prompt model

The `LanguageModelV2` prompt: typed messages carrying ordered content parts.
A `tool-call` part's `input` is modelled as a structured JSON value (the
AI SDK delivers structured inputs; the source's `typeof input === 'string'`
branch re-parses caller-supplied pre-serialized strings and is not needed for
structured values, so here `JSON.stringify(input)` is always the serializer
branch).  A `tool-result` part's `output` follows the AI SDK's tagged union. -/

inductive ToolResultOutput where
  | text (value : String)
  | errorText (value : String)
  | json (value : Json)
deriving Repr, DecidableEq, Inhabited

inductive ContentPart where
  | text (text : String)
  | file (mediaType : Option String) (data : String)
  | toolCall (toolCallId : String) (toolName : String) (input : Json)
  | toolResult (toolCallId : String) (toolName : Option String)
      (output : ToolResultOutput)
deriving Repr, DecidableEq, Inhabited

inductive Message where
  | system (content : String)
  | user (content : List ContentPart)
  | assistant (content : List ContentPart)
  | tool (content : List ContentPart)
deriving Repr, DecidableEq, Inhabited

/-! ## Generic-format message conversion (`convertMessagesToGenericFormat`) -/

inductive GenChatContent where
  | text (text : String)
  | image (mediaType : String) (data : String)
  | toolCallContent (id : String) (name : String) (arguments : String)
deriving Repr, DecidableEq, Inhabited

structure GenToolCall where
  type : String
  id : String
  name : String
  arguments : String
deriving Repr, DecidableEq, Inhabited

structure GenericMessage where
  role : String
  content : Option (List GenChatContent)
  toolCalls : Option (List GenToolCall) := none
  toolCallId : Option String := none
deriving Repr, DecidableEq, Inhabited

/-- The tool-call directive text for the xAI/Llama fallback:
`[Called tool "<name>" with: <args>]`. -/
def toolCallTextXai (toolName : String) (args : String) : String :=
  "[Called tool \"" ++ toolName ++ "\" with: " ++ args ++ "]"

/-- The tool-call directive text tracked for the Google parallel-call fallback:
`[Called tool "<name>" (<id>) with: <args>]`. -/
def toolCallTextGoogle (toolName : String) (toolCallId : String) (args : String) :
    String :=
  "[Called tool \"" ++ toolName ++ "\" (" ++ toolCallId ++ ") with: " ++ args ++ "]"

/-- The tool-result directive for the xAI/Llama fallback:
`[Tool result from "<name>": <text>]`. -/
def toolResultTextXai (toolName : String) (resultText : String) : String :=
  "[Tool result from \"" ++ toolName ++ "\": " ++ resultText ++ "]"

/-- The combined tool-result part text for the Google parallel-results
fallback: `[Tool result from "<name>" (<id>): <text>]`. -/
def toolResultTextGoogle (toolName : String) (toolCallId : String)
    (resultText : String) : String :=
  "[Tool result from \"" ++ toolName ++ "\" (" ++ toolCallId ++ "): " ++ resultText ++ "]"

/-- `typeof part.input === 'string' ? part.input : JSON.stringify(part.input)`
for a structured input (see the prompt-model note above). -/
def toolCallArgs (input : Json) : String := jsonStringify input

/-- The tool-result text extraction shared by the generic conversion
(`resultText`).  The AI SDK tagged union: `text`/`error-text` use the value
directly (`output.value ?? ''` — the value is always present here), `json`
stringifies it. -/
def toolResultText : ToolResultOutput → String
  | .text v => v
  | .errorText v => v
  | .json v => jsonStringify v

/-- `(part as any).toolName || 'tool'` (JS `||`: an empty string also falls
back). -/
def toolNameOrDefault : Option String → String
  | some s => if s = "" then "tool" else s
  | none => "tool"

/-- The text-merging step used by both fallbacks: append the directive text to
the first content part when it is a TEXT part, otherwise `unshift` a new TEXT
part. -/
def mergeToolCallText (content : List GenChatContent) (toolCallText : String) :
    List GenChatContent :=
  match content with
  | .text t :: rest => .text (t ++ "\n" ++ toolCallText) :: rest
  | _ => .text toolCallText :: content

/-- The `role === 'assistant'` branch: fold over the parts accumulating
`content`, `toolCallTexts` and `toolCalls` (each accumulated in order), then
assemble the assistant message. -/
def assistantAccParts (isXAI isLlama isGoogle : Bool) :
    List ContentPart → List GenChatContent × List String × List GenToolCall
  | [] => ([], [], [])
  | part :: rest =>
      let (content, toolCallTexts, toolCalls) :=
        assistantAccParts isXAI isLlama isGoogle rest
      match part with
      | .text t => (.text t :: content, toolCallTexts, toolCalls)
      | .toolCall toolCallId toolName input =>
          if isXAI || isLlama then
            (content, toolCallTextXai toolName (toolCallArgs input) :: toolCallTexts,
             toolCalls)
          else if isGoogle then
            (content,
             toolCallTextGoogle toolName toolCallId (toolCallArgs input) :: toolCallTexts,
             ⟨"FUNCTION", toolCallId, toolName, toolCallArgs input⟩ :: toolCalls)
          else
            (.toolCallContent toolCallId toolName (toolCallArgs input) :: content,
             toolCallTexts, toolCalls)
      | _ => (content, toolCallTexts, toolCalls)

/-- Assemble one assistant wire message from the accumulated parts
(`role === 'assistant'` tail of the loop body). -/
def convertAssistantGeneric (isXAI isLlama isGoogle : Bool)
    (parts : List ContentPart) : GenericMessage :=
  let (content0, toolCallTexts, toolCalls) := assistantAccParts isXAI isLlama isGoogle parts
  let content :=
    if (isXAI || isLlama) && toolCallTexts.length > 0 then
      mergeToolCallText content0 (String.intercalate "\n" toolCallTexts)
    else content0
  if isGoogle && toolCalls.length == 1 then
    { role := "ASSISTANT"
      content := if content.length > 0 then some content else none
      toolCalls := some toolCalls }
  else if isGoogle && toolCalls.length > 1 then
    { role := "ASSISTANT"
      content := some (mergeToolCallText content (String.intercalate "\n" toolCallTexts)) }
  else
    { role := "ASSISTANT"
      content := if content.length > 0 then some content else none }

/-- The `role === 'user'` branch: text parts plus base64 file parts. -/
def convertUserGeneric : List ContentPart → List GenChatContent
  | [] => []
  | .text t :: rest => .text t :: convertUserGeneric rest
  | .file mediaType data :: rest =>
      .image (match mediaType with
              | some s => if s = "" then "image/png" else s
              | none => "image/png") data :: convertUserGeneric rest
  | _ :: rest => convertUserGeneric rest

/-- The `role === 'tool'` branch: per tool-result part, xAI/Llama produce a
synthetic USER message, Google collects results for batching, and the standard
path produces a TOOL message. -/
def convertToolGeneric (isXAI isLlama isGoogle : Bool) (parts : List ContentPart) :
    List GenericMessage :=
  let step : ContentPart → (List GenericMessage × List (String × String × String)) →
      (List GenericMessage × List (String × String × String)) :=
    fun part (msgs, googleResults) =>
      match part with
      | .toolResult toolCallId toolName output =>
          let resultText := toolResultText output
          if isXAI || isLlama then
            ({ role := "USER"
               content := some [.text (toolResultTextXai (toolNameOrDefault toolName) resultText)] }
              :: msgs, googleResults)
          else if isGoogle then
            (msgs, (toolCallId, resultText, toolNameOrDefault toolName) :: googleResults)
          else
            ({ role := "TOOL"
               content := some [.text resultText]
               toolCallId := some toolCallId } :: msgs, googleResults)
      | _ => (msgs, googleResults)
  let (msgs, googleToolResults) := parts.foldr step ([], [])
  if isGoogle && googleToolResults.length > 0 then
    if googleToolResults.length == 1 then
      msgs ++ [{ role := "TOOL"
                 content := some [.text (googleToolResults.headI.2.1)]
                 toolCallId := some (googleToolResults.headI.1) }]
    else
      msgs ++ [{ role := "USER"
                 content := some (googleToolResults.map fun r =>
                   .text (toolResultTextGoogle r.2.2 r.1 r.2.1)) }]
  else msgs

/-- `convertMessagesToGenericFormat(prompt)`. -/
def convertMessagesToGenericFormat (modelId : String) (prompt : List Message) :
    List GenericMessage :=
  let isXAI := jsStartsWith modelId "xai."
  let isLlama := jsStartsWith modelId "meta.llama"
  let isGoogle := jsStartsWith modelId "google."
  prompt.flatMap fun msg =>
    match msg with
    | .system content => [{ role := "SYSTEM", content := some [.text content] }]
    | .user parts => [{ role := "USER", content := some (convertUserGeneric parts) }]
    | .assistant parts => [convertAssistantGeneric isXAI isLlama isGoogle parts]
    | .tool parts => convertToolGeneric isXAI isLlama isGoogle parts

/-! ## Call options and request builders -/

structure FunctionTool where
  name : String
  description : Option String := none
  inputSchema : Json
deriving Repr, DecidableEq, Inhabited

/-- A tool supplied by the caller; the converters keep only `function` tools
(`tool.type === 'function'`). -/
inductive Tool where
  | function (f : FunctionTool)
  | providerDefined
deriving Repr, DecidableEq, Inhabited

/-- `options.providerOptions?.['oci-genai']`. -/
structure ProviderOpts where
  reasoningEffort : Option String := none
  thinkingBudgetTokens : Option Nat := none
deriving Repr, DecidableEq, Inhabited

inductive ToolChoiceKind where
  | auto | none' | required | tool (toolName : String)
deriving Repr, DecidableEq, Inhabited

/-- `LanguageModelV2CallOptions` (the fields the builders read). -/
structure CallOptions where
  prompt : List Message
  maxOutputTokens : Option Nat := none
  temperature : Option Rat := none
  topP : Option Rat := none
  frequencyPenalty : Option Rat := none
  presencePenalty : Option Rat := none
  stopSequences : Option (List String) := none
  tools : Option (List Tool) := none
  toolChoice : Option ToolChoiceKind := none
  ociGenai : Option ProviderOpts := none
deriving Repr, DecidableEq, Inhabited

/-- `applyDefaults(value, default) = value !== undefined ? value : default`. -/
def applyDefaults {α : Type} (value : Option α) (defaultValue : α) : α :=
  match value with
  | some v => v
  | none => defaultValue

structure GenericTool where
  type : String
  name : String
  description : Option String
  parameters : Json
deriving Repr, DecidableEq, Inhabited

/-- `convertTools(tools)`: `undefined` when no tools were supplied or the list
is empty, else the function tools with sanitized parameter schemas. -/
def convertTools (tools : Option (List Tool)) : Option (List GenericTool) :=
  match tools with
  | none => none
  | some ts =>
      if ts.length = 0 then none
      else some (ts.filterMap fun t =>
        match t with
        | .function f =>
            some { type := "FUNCTION", name := f.name, description := f.description,
                   parameters := cleanJsonSchema f.inputSchema }
        | .providerDefined => none)

/-- The `GENERIC` wire request.  `Option` fields model presence/absence of the
property on the request object (spread-conditional or branch-assigned). -/
structure GenericChatRequest where
  apiFormat : String
  messages : List GenericMessage
  maxTokens : Option Nat
  temperature : Rat
  topP : Rat
  stop : Option (List String)
  tools : Option (List GenericTool)
  frequencyPenalty : Option Rat
  presencePenalty : Option Rat
  reasoningEffort : Option String
deriving Repr, DecidableEq, Inhabited

/-- `reasoningEffort || 'MEDIUM'` from `providerOptions?.['oci-genai']`. -/
def reasoningEffortOrMedium (ociGenai : Option ProviderOpts) : String :=
  match ociGenai with
  | some po =>
      match po.reasoningEffort with
      | some s => if s = "" then "MEDIUM" else s
      | none => "MEDIUM"
  | none => "MEDIUM"

/-- `buildGenericChatRequest(options)` for the model `modelId` with preset
`getSWEPreset modelId` (the constructor stores both on the instance). -/
def buildGenericChatRequest (modelId : String) (options : CallOptions) :
    GenericChatRequest :=
  let swePreset := getSWEPreset modelId
  let messages := convertMessagesToGenericFormat modelId options.prompt
  let tools :=
    if swePreset.supportsTools ∧ options.tools.isSome then convertTools options.tools
    else none
  let supportsStop := swePreset.supportsStopSequences ≠ some false
  { apiFormat := "GENERIC"
    messages := messages
    maxTokens := options.maxOutputTokens
    temperature := applyDefaults options.temperature swePreset.temperature
    topP := applyDefaults options.topP swePreset.topP
    stop :=
      if supportsStop ∧ (match options.stopSequences with
                         | some l => decide (l.length > 0)
                         | none => false) = true then
        options.stopSequences
      else none
    tools := tools
    frequencyPenalty :=
      if swePreset.supportsPenalties then
        some (applyDefaults options.frequencyPenalty swePreset.frequencyPenalty)
      else none
    presencePenalty :=
      if swePreset.supportsPenalties then
        some (applyDefaults options.presencePenalty swePreset.presencePenalty)
      else none
    reasoningEffort :=
      if swePreset.supportsReasoning = some true ∧ ¬ jsStartsWith modelId "xai." then
        some (reasoningEffortOrMedium options.ociGenai)
      else none }

/-! ## Legacy Cohere conversion (`convertMessagesToCohereFormat`) and builder -/

structure CohereToolCallEntry where
  name : String
  parameters : Json
deriving Repr, DecidableEq, Inhabited

/-- One `chatHistory` entry (`role` is `'USER'` or `'CHATBOT'`; `toolCalls` is
present only on CHATBOT entries that carried tool calls). -/
structure CohereHistEntry where
  role : String
  message : String
  toolCalls : Option (List CohereToolCallEntry) := none
deriving Repr, DecidableEq, Inhabited

structure CohereToolResult where
  callName : String
  callParameters : Json
  outputs : List Json
deriving Repr, DecidableEq, Inhabited

/-- State threaded through the `for (let i = 0; ...)` loop of
`convertMessagesToCohereFormat`. -/
structure CohereConvState where
  chatHistory : List CohereHistEntry
  toolResults : List CohereToolResult
  systemPreamble : String
  lastUserMessage : String
deriving Repr, DecidableEq, Inhabited

/-- Joined text of the `text` parts of a message
(`.filter(type === 'text').map(text).join('\n')`). -/
def textOfParts (parts : List ContentPart) : String :=
  String.intercalate "\n" (parts.filterMap fun p =>
    match p with
    | .text t => some t
    | _ => none)

/-- The `tool-call` parts of a message, as Cohere tool-call entries
(`parameters` is the structured input; see the prompt-model note). -/
def toolCallEntriesOfParts (parts : List ContentPart) : List CohereToolCallEntry :=
  parts.filterMap fun p =>
    match p with
    | .toolCall _ name input => some ⟨name, input⟩
    | _ => none

/-- The Cohere tool-result `resultValue` as a JSON output entry:
`outputs: [typeof resultValue === 'string' ? \x7b result: resultValue \x7d : resultValue]`.
`text`/`error-text` values are strings and get wrapped; `json` values are used
as-is unless they are JSON strings. -/
def cohereOutputOf (output : ToolResultOutput) : Json :=
  match output with
  | .text v => .obj [("result", .str v)]
  | .errorText v => .obj [("result", .str v)]
  | .json (.str s) => .obj [("result", .str s)]
  | .json v => v

/-- The `role === 'tool'` part loop: for each tool-result part, look up the
most recent CHATBOT history entry carrying `toolCalls` and take its first tool
call (`find(() => true)`); matched results are appended, unmatched ones are
dropped. -/
def cohereToolStep (chatHistory : List CohereHistEntry)
    (toolResults : List CohereToolResult) : List ContentPart → List CohereToolResult
  | [] => toolResults
  | .toolResult _ _ output :: rest =>
      let prevAssistant := chatHistory.reverse.find? fun m =>
        m.role = "CHATBOT" && m.toolCalls.isSome
      let toolCall : Option CohereToolCallEntry :=
        match prevAssistant with
        | some m =>
            match m.toolCalls with
            | some tcs => tcs.find? fun _ => true
            | none => none
        | none => none
      match toolCall with
      | some tc =>
          cohereToolStep chatHistory
            (toolResults ++ [⟨tc.name, tc.parameters, [cohereOutputOf output]⟩]) rest
      | none => cohereToolStep chatHistory toolResults rest
  | _ :: rest => cohereToolStep chatHistory toolResults rest

/-- One iteration of the message loop; `rest` is `prompt.slice(i + 1)`, used by
the `user` branch to detect the last user message. -/
def cohereConvStep (st : CohereConvState) (msg : Message) (rest : List Message) :
    CohereConvState :=
  match msg with
  | .system content => { st with systemPreamble := content }
  | .user parts =>
      let text := textOfParts parts
      if !(rest.any fun m => match m with | .user _ => true | _ => false) then
        { st with lastUserMessage :=
            if st.systemPreamble ≠ "" then st.systemPreamble ++ "\n\n" ++ text else text }
      else
        { st with chatHistory := st.chatHistory ++ [{ role := "USER", message := text }] }
  | .assistant parts =>
      let text := textOfParts parts
      let toolCallParts := toolCallEntriesOfParts parts
      if toolCallParts.length > 0 then
        { st with chatHistory := st.chatHistory ++
            [{ role := "CHATBOT", message := text, toolCalls := some toolCallParts }] }
      else if text ≠ "" then
        { st with chatHistory := st.chatHistory ++
            [{ role := "CHATBOT", message := text }] }
      else st
  | .tool parts =>
      { st with toolResults := cohereToolStep st.chatHistory st.toolResults parts }

/-- The whole message loop. -/
def cohereConvLoop (st : CohereConvState) : List Message → CohereConvState
  | [] => st
  | msg :: rest => cohereConvLoop (cohereConvStep st msg rest) rest

/-- `convertMessagesToCohereFormat(prompt)`. -/
def convertMessagesToCohereFormat (prompt : List Message) : CohereConvState :=
  cohereConvLoop ⟨[], [], "", ""⟩ prompt

structure CohereThinking where
  type : String
  budgetTokens : Option Nat
deriving Repr, DecidableEq, Inhabited

structure CohereTool where
  name : String
  description : String
  parameterDefinitions : Json
deriving Repr, DecidableEq, Inhabited

/-- The legacy `COHERE` wire request. -/
structure CohereChatRequest where
  apiFormat : String
  message : String
  chatHistory : List CohereHistEntry
  maxTokens : Option Nat
  temperature : Rat
  topP : Rat
  frequencyPenalty : Rat
  presencePenalty : Rat
  tools : Option (List CohereTool)
  toolResults : Option (List CohereToolResult)
  isForceSingleStep : Option Bool
  thinking : Option CohereThinking
deriving Repr, DecidableEq, Inhabited

/-- `a || b` on a possibly-`undefined` JSON value with a JSON fallback. -/
def jsOrJson (a : Option Json) (b : Json) : Json :=
  match a with
  | some v => if v.truthy then v else b
  | none => b

/-- `jsonSchemaToCohereparams(schema)`: one parameter definition per entry of
`schema.properties` (when `schema.type === 'object'` and `properties` is
truthy), skipping boolean property schemas. -/
def jsonSchemaToCohereparams (schema : Json) : Json :=
  if schema.get? "type" = some (.str "object") ∧ Json.otruthy (schema.get? "properties") then
    match schema.get? "properties" with
    | some (.obj props) =>
        let required : List Json :=
          match jsOrJson (schema.get? "required") (.arr []) with
          | .arr rs => rs
          | _ => []
        .obj (props.filterMap fun p =>
          match p.2 with
          | .bool _ => none
          | propSchema =>
              some (p.1, .obj [
                ("type", jsOrJson (propSchema.get? "type") (.str "string")),
                ("description", jsOrJson (propSchema.get? "description") (.str "")),
                ("isRequired", .bool (required.contains (.str p.1)))]))
    | _ => .obj []
  else .obj []

/-- `convertToolsToCohere(tools)`: `undefined` when no/empty tools, else the
function tools in Cohere shape. -/
def convertToolsToCohere (tools : Option (List Tool)) : Option (List CohereTool) :=
  match tools with
  | none => none
  | some ts =>
      if ts.length = 0 then none
      else some (ts.filterMap fun t =>
        match t with
        | .function f =>
            some { name := f.name,
                   description := (match f.description with
                                   | some d => if d = "" then "" else d
                                   | none => ""),
                   parameterDefinitions := jsonSchemaToCohereparams f.inputSchema }
        | .providerDefined => none)

/-- `buildCohereChatRequest(options)` for `modelId` (preset resolved as in the
constructor). -/
def buildCohereChatRequest (modelId : String) (options : CallOptions) :
    CohereChatRequest :=
  let swePreset := getSWEPreset modelId
  let conv := convertMessagesToCohereFormat options.prompt
  let tools :=
    if swePreset.supportsTools ∧ options.tools.isSome then convertToolsToCohere options.tools
    else none
  let hasToolResults := conv.toolResults.length > 0
  { apiFormat := "COHERE"
    message := conv.lastUserMessage
    chatHistory := conv.chatHistory
    maxTokens := options.maxOutputTokens
    temperature := applyDefaults options.temperature swePreset.temperature
    topP := applyDefaults options.topP swePreset.topP
    frequencyPenalty := applyDefaults options.frequencyPenalty swePreset.frequencyPenalty
    presencePenalty := applyDefaults options.presencePenalty swePreset.presencePenalty
    tools := tools
    toolResults := if hasToolResults then some conv.toolResults else none
    isForceSingleStep := if hasToolResults then some true else none
    thinking :=
      if swePreset.supportsReasoning = some true then
        some { type := "ENABLED"
               budgetTokens :=
                 match options.ociGenai with
                 | some po =>
                     match po.thinkingBudgetTokens with
                     | some b => if b = 0 then none else some b
                     | none => none
                 | none => none }
      else none }

/-! ## Stream events

`LanguageModelV2StreamPart` as emitted by the provider.  Usage is carried as
the `createUsage` record (`totalTokens` only defined when both counts are). -/

structure Usage where
  inputTokens : Option Rat
  outputTokens : Option Rat
  totalTokens : Option Rat
deriving Repr, DecidableEq, Inhabited

/-- `createUsage(promptTokens, completionTokens)`. -/
def createUsage (promptTokens completionTokens : Option Rat) : Usage :=
  { inputTokens := promptTokens
    outputTokens := completionTokens
    totalTokens :=
      match promptTokens, completionTokens with
      | some p, some c => some (p + c)
      | _, _ => none }

inductive StreamPart where
  | streamStart
  | textStart (id : String)
  | textDelta (id : String) (delta : String)
  | textEnd (id : String)
  | reasoningStart (id : String)
  | reasoningDelta (id : String) (delta : String)
  | reasoningEnd (id : String)
  | toolInputStart (id : String) (toolName : String)
  | toolInputDelta (id : String) (delta : String)
  | toolInputEnd (id : String)
  | toolCallSummary (toolCallId : String) (toolName : String) (input : String)
  | finish (finishReason : FinishReason) (usage : Usage)
  | errorPart
deriving Repr, DecidableEq, Inhabited

/-- `generateId()` produces a fresh unpredictable id (`Date.now` + random);
modelled by a counter threaded through the computation. -/
def generateId (n : Nat) : String := "oci-" ++ toString n

/-! ### JS field-probing helpers over possibly-`undefined` JSON values -/

namespace Json

/-- Optional chaining `o?.k` on a possibly-`undefined` value. -/
def oget (o : Option Json) (k : String) : Option Json := o.bind (·.get? k)

/-- A value used as a non-empty string (`if (x) � emit with x` where `x` is a
string field of the wire event): `some` exactly when it is a truthy string.
A truthy non-string in such a position is outside the wire protocol and is
modelled as absent. -/
def truthyStr? : Option Json → Option String
  | some (.str s) => if s = "" then none else some s
  | _ => none

/-- A `a || b || … || 'dflt'` chain of name-like fields read as a string. -/
def strOr (xs : List (Option Json)) (dflt : String) : String :=
  match xs with
  | [] => dflt
  | x :: rest => match truthyStr? x with
                 | some s => s
                 | none => strOr rest dflt

/-- A `a || b || …` chain of JSON values (first truthy wins; otherwise the
last operand, here collapsed to `none` when no operand is truthy). -/
def jsOrChain : List (Option Json) → Option Json
  | [] => none
  | x :: rest => if otruthy x then x else jsOrChain rest

/-- A numeric field (token counts). -/
def asNum? : Option Json → Option Rat
  | some (.num q) => some q
  | _ => none

/-- `String.toUpperCase`, character by character (ASCII as in JS for the
identifiers compared here). -/
def upper (s : String) : String := String.mk (s.data.map Char.toUpper)

/-- `(part.type || '').toUpperCase()` — read as a string (`''` fallback). -/
def typeUpper (part : Json) : String :=
  match truthyStr? (part.get? "type") with
  | some s => upper s
  | none => ""

end Json

/-- `id-or-generate`: `x.id || generateId()`; returns the id and the next
counter value. -/
def idOrGen (o : Option Json) (counter : Nat) : String × Nat :=
  match Json.truthyStr? o with
  | some s => (s, counter)
  | none => (generateId counter, counter + 1)

/-! ## Simulated streaming of a non-streaming response
(`handleNonStreamingResponse`) -/

/-- `text.slice(i, i + 50)` chunking loop. -/
def chunkString : List Char → List String
  | [] => []
  | c :: cs => String.mk ((c :: cs).take 50) :: chunkString ((c :: cs).drop 50)
termination_by cs => cs.length
decreasing_by simp [List.length_drop]; omega

/-- The normalized fields a family branch of `handleNonStreamingResponse`
computes before emission. -/
structure NormResult where
  text : String := ""
  reasoningContent : String := ""
  toolCalls : List (String × String × String) := []
  finishReason : FinishReason := .stop
  promptTokens : Rat := 0
  completionTokens : Rat := 0
deriving Repr, DecidableEq, Inhabited

/-- `mapFinishReason` applied to a raw JSON field (the `switch` only matches
string values; anything else falls to the default `'stop'`). -/
def mapFinishReasonJson : Option Json → FinishReason
  | some (.str s) => mapFinishReason (some s)
  | _ => .stop

/-- The tool-call argument serialization used across the normalizers:
`typeof args === 'string' ? args : JSON.stringify(args || another || \x7b\x7d)`. -/
def argsOr (primary : Option Json) (fallbacks : List (Option Json)) : String :=
  match primary with
  | some (.str s) => s
  | _ =>
      match Json.jsOrChain (primary :: fallbacks) with
      | some v => jsonStringify v
      | none => jsonStringify (.obj [])

/-- The `cohere-v2` branch of `handleNonStreamingResponse`. -/
def normCohereV2 (swePreset : SWEPreset) (chatResult : Json) (counter : Nat) :
    NormResult × Nat :=
  let v2Response := chatResult.get? "chatResponse"
  let message := Json.oget v2Response "message"
  let contentParts := (Json.asArray? (Json.oget message "content")).getD []
  let textRes := String.join (contentParts.filterMap fun part =>
    if Json.typeUpper part = "TEXT" then Json.truthyStr? (part.get? "text") else none)
  let reasoning0 := (contentParts.filterMap fun part =>
    if Json.typeUpper part = "THINKING" then Json.truthyStr? (part.get? "thinking")
    else none).getLastD ""
  let tcsJson := (Json.asArray? (Json.oget message "toolCalls")).getD []
  let step : Json → (List (String × String × String) × Nat) →
      (List (String × String × String) × Nat) := fun toolCall (acc, cnt) =>
    let funcCall := (Json.jsOrChain [toolCall.get? "function", some toolCall]).getD toolCall
    let args := argsOr (funcCall.get? "arguments") []
    let (tid, cnt') := idOrGen (toolCall.get? "id") cnt
    ((tid, Json.strOr [funcCall.get? "name", toolCall.get? "name"] "", args) :: acc, cnt')
  let (toolCallsRev, counter') := tcsJson.foldl (fun acc tc => step tc acc) ([], counter)
  let toolCalls := toolCallsRev.reverse
  let reasoning :=
    match Json.truthyStr? (Json.oget message "toolPlan") with
    | some plan =>
        if swePreset.supportsReasoning = some true then
          plan ++ (if reasoning0 ≠ "" then "\n" ++ reasoning0 else "")
        else reasoning0
    | none => reasoning0
  let hasToolCalls := toolCalls.length > 0
  let usage := Json.oget v2Response "usage"
  ({ text := textRes
     reasoningContent := reasoning
     toolCalls := toolCalls
     finishReason :=
       if hasToolCalls then .toolCalls
       else mapFinishReasonJson (Json.oget v2Response "finishReason")
     promptTokens := (Json.asNum? (Json.jsOrChain
       [Json.oget usage "promptTokens", Json.oget usage "inputTokens"])).getD 0
     completionTokens := (Json.asNum? (Json.jsOrChain
       [Json.oget usage "completionTokens", Json.oget usage "outputTokens"])).getD 0 },
   counter')

/-- The legacy `cohere` branch of `handleNonStreamingResponse` (this branch
extracts no usage; the token counters keep their initial 0). -/
def normCohere (chatResult : Json) (counter : Nat) : NormResult × Nat :=
  let cohereResponse := chatResult.get? "chatResponse"
  let textRes := (Json.truthyStr? (Json.oget cohereResponse "text")).getD ""
  let contentParts := (Json.asArray? (Json.oget cohereResponse "content")).getD []
  let reasoning := (contentParts.filterMap fun part =>
    if part.get? "type" = some (.str "THINKING") then
      Json.truthyStr? (part.get? "thinking")
    else none).getLastD ""
  let tcsJson := (Json.asArray? (Json.oget cohereResponse "toolCalls")).getD []
  let step : (List (String × String × String) × Nat) → Json →
      (List (String × String × String) × Nat) := fun acc toolCall =>
    ((generateId acc.2, Json.strOr [toolCall.get? "name"] "",
       jsonStringify ((Json.jsOrChain [toolCall.get? "parameters"]).getD (.obj [])))
       :: acc.1,
     acc.2 + 1)
  let folded := tcsJson.foldl step ([], counter)
  let toolCalls := folded.1.reverse
  ({ text := textRes, reasoningContent := reasoning, toolCalls := toolCalls,
     finishReason :=
       if toolCalls.length > 0 then .toolCalls
       else mapFinishReasonJson (Json.oget cohereResponse "finishReason") },
   folded.2)

/-- The nested argument ternary of the generic normalizer:
`typeof a === 'string' ? a : typeof b === 'string' ? b : JSON.stringify(a || b || … || \x7b\x7d)`. -/
def argsOr2 (a b : Option Json) (extra : List (Option Json)) : String :=
  match a with
  | some (.str s) => s
  | _ =>
      match b with
      | some (.str s) => s
      | _ => jsonStringify ((Json.jsOrChain (a :: b :: extra)).getD (.obj []))

/-- `x.id || y.id || generateId()`. -/
def idOrGen2 (a b : Option Json) (counter : Nat) : String × Nat :=
  match Json.truthyStr? a with
  | some s => (s, counter)
  | none =>
      match Json.truthyStr? b with
      | some s => (s, counter)
      | none => (generateId counter, counter + 1)

/-- The `generic` branch of `handleNonStreamingResponse`.  Note: unlike the
other two branches (and unlike `doGenerate`), this branch does *not* force the
finish reason to `tool-calls` when tool calls are present. -/
def normGeneric (swePreset : SWEPreset) (chatResult : Json) (counter : Nat) :
    NormResult × Nat :=
  let genericResponse := chatResult.get? "chatResponse"
  let choice := (Json.asArray? (Json.oget genericResponse "choices")).getD [] |>.head?
  let message := Json.oget choice "message"
  let contentArr := Json.asArray? (Json.oget message "content")
  let textFromParts := String.join ((contentArr.getD []).filterMap fun part =>
    if Json.typeUpper part = "TEXT" then Json.truthyStr? (part.get? "text") else none)
  let textRes :=
    match contentArr with
    | some _ => textFromParts
    | none =>
        match Json.oget message "content" with
        | some (.str s) => s
        | _ => (Json.truthyStr? (Json.oget message "text")).getD ""
  let isToolCallPart : Json → Bool := fun part =>
    Json.typeUpper part = "TOOL_CALL" || Json.typeUpper part = "FUNCTION_CALL" ||
      Json.otruthy (part.get? "functionCall")
  let partStep : (List (String × String × String) × Nat) → Json →
      (List (String × String × String) × Nat) := fun acc part =>
    if isToolCallPart part then
      let funcCall := (Json.jsOrChain
        [part.get? "functionCall", part.get? "function", some part]).getD part
      let args := argsOr2 (part.get? "arguments") (funcCall.get? "arguments")
        [funcCall.get? "args"]
      let (tid, cnt') := idOrGen2 (part.get? "id") (funcCall.get? "id") acc.2
      ((tid, Json.strOr [part.get? "name", funcCall.get? "name"] "", args) :: acc.1, cnt')
    else acc
  let foldedParts := (contentArr.getD []).foldl partStep ([], counter)
  let msgToolCalls := Json.jsOrChain
    [Json.oget message "tool_calls", Json.oget message "toolCalls",
     Json.oget message "function_call"]
  let calls : List Json :=
    match msgToolCalls with
    | some (.arr tcs) => tcs
    | some v => [v]
    | none => []
  let tcStep : (List (String × String × String) × Nat) → Json →
      (List (String × String × String) × Nat) := fun acc tc =>
    let funcCall := (Json.jsOrChain [tc.get? "function", some tc]).getD tc
    let args := argsOr (funcCall.get? "arguments") [funcCall.get? "args"]
    let (tid, cnt') := idOrGen (tc.get? "id") acc.2
    ((tid, Json.strOr [funcCall.get? "name", tc.get? "name"] "", args) :: acc.1, cnt')
  let foldedMsg := calls.foldl tcStep foldedParts
  let toolCalls := foldedMsg.1.reverse
  let reasoning :=
    match Json.truthyStr? (Json.oget message "reasoningContent") with
    | some rc => if swePreset.supportsReasoning = some true then rc else ""
    | none => ""
  let usage := Json.oget genericResponse "usage"
  ({ text := textRes
     reasoningContent := reasoning
     toolCalls := toolCalls
     finishReason := mapFinishReasonJson (Json.oget choice "finishReason")
     promptTokens := (Json.asNum? (Json.oget usage "promptTokens")).getD 0
     completionTokens := (Json.asNum? (Json.oget usage "completionTokens")).getD 0 },
   foldedMsg.2)

/-- The family-independent emission tail of `handleNonStreamingResponse`:
chunked reasoning, chunked text, per-tool-call start/delta/end/summary, and
exactly one finish event. -/
def emitSimulated (r : NormResult) (textId reasoningId : String) : List StreamPart :=
  (if r.reasoningContent ≠ "" then
     [.reasoningStart reasoningId] ++
     ((chunkString r.reasoningContent.data).map fun d => .reasoningDelta reasoningId d) ++
     [.reasoningEnd reasoningId]
   else []) ++
  (if r.text ≠ "" then
     [.textStart textId] ++
     ((chunkString r.text.data).map fun d => .textDelta textId d) ++
     [.textEnd textId]
   else []) ++
  (r.toolCalls.flatMap fun tc =>
     [.toolInputStart tc.1 tc.2.1, .toolInputDelta tc.1 tc.2.2, .toolInputEnd tc.1,
      .toolCallSummary tc.1 tc.2.1 tc.2.2]) ++
  [.finish r.finishReason (createUsage (some r.promptTokens) (some r.completionTokens))]

/-- `handleNonStreamingResponse(chatResult, controller, modelFamily, …)`:
the emitted stream-part sequence. -/
def handleNonStreamingResponse (modelFamily : ModelFamily) (swePreset : SWEPreset)
    (chatResult : Json) (textId reasoningId : String) (counter : Nat) :
    List StreamPart :=
  let r :=
    match modelFamily with
    | .cohereV2 => (normCohereV2 swePreset chatResult counter).1
    | .cohere => (normCohere chatResult counter).1
    | .generic => (normGeneric swePreset chatResult counter).1
  emitSimulated r textId reasoningId

/-! ## SSE streaming (`handleSSEStream` and the two event handlers)

The byte-level SSE framing (`data: ` lines, `[DONE]`, `JSON.parse` with
parse failures skipped) is transport; the handlers are modelled on the list of
successfully parsed JSON events.

One per-event subtlety is modelled exactly: each event is handled with a
*snapshot* of `textStarted`/`reasoningStarted` (the `state` object passed to
the handler copies the booleans by value, while `updateState` writes the
enclosing variables), whereas the tool-call `Map`/`Set` are shared by
reference and mutations are visible immediately.  `updateState` calls merge
field-wise, last write wins. -/

structure StreamSt where
  toolCalls : List (String × String × String) := []
  toolCallsStarted : List String := []
  counter : Nat := 0
deriving Repr, DecidableEq, Inhabited

structure FlagUpdates where
  textStarted : Option Bool := none
  reasoningStarted : Option Bool := none
  finishReason : Option FinishReason := none
  promptTokens : Option Rat := none
  completionTokens : Option Rat := none
deriving Repr, DecidableEq, Inhabited

/-- Apply a later `updateState` on top of an earlier one (later fields win). -/
def FlagUpdates.merge (u v : FlagUpdates) : FlagUpdates :=
  { textStarted := match v.textStarted with | some b => some b | none => u.textStarted
    reasoningStarted := match v.reasoningStarted with
                        | some b => some b | none => u.reasoningStarted
    finishReason := match v.finishReason with | some f => some f | none => u.finishReason
    promptTokens := match v.promptTokens with | some q => some q | none => u.promptTokens
    completionTokens := match v.completionTokens with
                        | some q => some q | none => u.completionTokens }

/-- JS `Map.has`. -/
def mapHas (m : List (String × String × String)) (k : String) : Bool :=
  m.any fun e => e.1 = k

/-- JS `Map.set`: replace in place, else append (insertion order kept). -/
def mapSet (m : List (String × String × String)) (k name input : String) :
    List (String × String × String) :=
  match m with
  | [] => [(k, name, input)]
  | e :: rest => if e.1 = k then (k, name, input) :: rest else e :: mapSet rest k name input

/-- JS `Map.get`. -/
def mapGet? (m : List (String × String × String)) (k : String) :
    Option (String × String) :=
  (m.find? fun e => e.1 = k).map (·.2)

/-- `Array.from(map.keys()).pop()`: the most recently inserted key. -/
def mapLastKey? (m : List (String × String × String)) : Option String :=
  (m.map (·.1)).getLast?

/-- JS `Set.add`. -/
def setAdd (s : List String) (k : String) : List String :=
  if k ∈ s then s else s ++ [k]

/-- Accumulator threaded through one event's handling: emitted parts, pending
`updateState` fields, and the shared tool-call map/set state. -/
structure HAcc where
  out : List StreamPart := []
  upd : FlagUpdates := {}
  st : StreamSt := {}
deriving Repr, DecidableEq, Inhabited

/-- Emit a text delta, opening the span first when the event-start snapshot
says it is not open (`if (!state.textStarted) … enqueue text-start`). -/
def emitTextDelta (textId : String) (textStartedSnap : Bool) (s : String)
    (acc : HAcc) : HAcc :=
  if !textStartedSnap then
    { acc with out := acc.out ++ [.textStart textId, .textDelta textId s]
               upd := acc.upd.merge { textStarted := some true } }
  else { acc with out := acc.out ++ [.textDelta textId s] }

/-- Same for reasoning deltas. -/
def emitReasoningDelta (reasoningId : String) (reasoningStartedSnap : Bool)
    (s : String) (acc : HAcc) : HAcc :=
  if !reasoningStartedSnap then
    { acc with out := acc.out ++ [.reasoningStart reasoningId, .reasoningDelta reasoningId s]
               upd := acc.upd.merge { reasoningStarted := some true } }
  else { acc with out := acc.out ++ [.reasoningDelta reasoningId s] }

/-- Register a new tool call (guarded by `!state.toolCalls.has(toolId)`) and
emit its `tool-input-start` plus one atomic `tool-input-delta`. -/
def registerToolCallAtomic (toolId toolName input : String) (acc : HAcc) : HAcc :=
  if !(mapHas acc.st.toolCalls toolId) then
    { acc with
        out := acc.out ++ [.toolInputStart toolId toolName, .toolInputDelta toolId input]
        st := { acc.st with
                  toolCalls := mapSet acc.st.toolCalls toolId toolName input
                  toolCallsStarted := setAdd acc.st.toolCallsStarted toolId } }
  else acc

/-- `usage` extraction `updateState` (a chain yielding no value leaves the
accumulated count unchanged). -/
def updateUsage (p c : Option Json) (acc : HAcc) : HAcc :=
  { acc with upd := acc.upd.merge ({ promptTokens := Json.asNum? p, completionTokens := Json.asNum? c }) }

/-- One `contentPart` of `event.message.content` in the Cohere handler. -/
def cohereContentPartStep (textId : String) (textStartedSnap : Bool)
    (acc : HAcc) (contentPart : Json) : HAcc :=
  let acc :=
    if contentPart.get? "type" = some (.str "TEXT") then
      match Json.truthyStr? (contentPart.get? "text") with
      | some s => emitTextDelta textId textStartedSnap s acc
      | none => acc
    else acc
  if contentPart.get? "type" = some (.str "TOOL_CALL") then
    let g := idOrGen (contentPart.get? "id") acc.st.counter
    let toolName := Json.strOr
      [contentPart.get? "name", Json.oget (contentPart.get? "function") "name"] ""
    let input := jsonStringify ((Json.jsOrChain
      [contentPart.get? "parameters",
       Json.oget (contentPart.get? "function") "arguments"]).getD (.obj []))
    registerToolCallAtomic g.1 toolName input
      { acc with st := { acc.st with counter := g.2 } }
  else acc

/-- One `tc` of `event.message.toolCalls` in the Cohere handler. -/
def cohereMsgToolCallStep (acc : HAcc) (tc : Json) : HAcc :=
  let g := idOrGen (tc.get? "id") acc.st.counter
  let toolName := Json.strOr [tc.get? "name", Json.oget (tc.get? "function") "name"] ""
  let input := jsonStringify ((Json.jsOrChain
    [tc.get? "parameters", Json.oget (tc.get? "function") "arguments"]).getD (.obj []))
  registerToolCallAtomic g.1 toolName input
    { acc with st := { acc.st with counter := g.2 } }

/-- `updateState(finishReason: mapFinishReason(raw))`. -/
def setFinishReasonUpd (r : Json) (acc : HAcc) : HAcc :=
  { acc with upd := acc.upd.merge ({ finishReason := some (mapFinishReasonJson (some r)) }) }

/-- One `tc` of `resp.toolCalls` in the Cohere handler's default case: the
call is recorded in the map without any emission. -/
def cohereRespToolCallStep (a : HAcc) (tc : Json) : HAcc :=
  let g := idOrGen (tc.get? "id") a.st.counter
  let toolName := Json.strOr [tc.get? "name", Json.oget (tc.get? "function") "name"] ""
  let input := jsonStringify ((Json.jsOrChain
    [tc.get? "parameters", Json.oget (tc.get? "function") "arguments"]).getD (.obj []))
  { a with st := { toolCalls := mapSet a.st.toolCalls g.1 toolName input
                   toolCallsStarted := a.st.toolCallsStarted
                   counter := g.2 } }

/-- The `content-start` case of the Cohere `switch (eventType)`. -/
def cohereCaseContentStart (textId : String) (textStartedSnap : Bool) (acc : HAcc) : HAcc :=
  if !textStartedSnap then
    { acc with out := acc.out ++ [.textStart textId]
               upd := acc.upd.merge { textStarted := some true } }
  else acc

/-- The `content-delta` case of the Cohere switch. -/
def cohereCaseContentDelta (event : Json) (textId : String) (textStartedSnap : Bool)
    (acc : HAcc) : HAcc :=
  let textDelta := Json.truthyStr? (Json.jsOrChain
    [Json.oget (Json.oget (Json.oget (event.get? "delta") "message") "content") "text",
     Json.oget (event.get? "delta") "text", event.get? "text"])
  match textDelta with
  | some s => emitTextDelta textId textStartedSnap s acc
  | none => acc

/-- The `content-end` case of the Cohere switch. -/
def cohereCaseContentEnd (textId : String) (textStartedSnap : Bool) (acc : HAcc) : HAcc :=
  if textStartedSnap then
    { acc with out := acc.out ++ [.textEnd textId]
               upd := acc.upd.merge { textStarted := some false } }
  else acc

/-- The `thinking-start`/`reasoning-start` cases of the Cohere switch. -/
def cohereCaseReasoningStart (reasoningId : String) (reasoningStartedSnap : Bool)
    (acc : HAcc) : HAcc :=
  if !reasoningStartedSnap then
    { acc with out := acc.out ++ [.reasoningStart reasoningId]
               upd := acc.upd.merge { reasoningStarted := some true } }
  else acc

/-- The `thinking-delta`/`reasoning-delta` cases of the Cohere switch. -/
def cohereCaseReasoningDelta (event : Json) (reasoningId : String)
    (reasoningStartedSnap : Bool) (acc : HAcc) : HAcc :=
  let thinkingDelta := Json.truthyStr? (Json.jsOrChain
    [Json.oget (event.get? "delta") "thinking",
     Json.oget (event.get? "delta") "text", event.get? "thinking"])
  match thinkingDelta with
  | some s => emitReasoningDelta reasoningId reasoningStartedSnap s acc
  | none => acc

/-- The `thinking-end`/`reasoning-end` cases of the Cohere switch. -/
def cohereCaseReasoningEnd (reasoningId : String) (reasoningStartedSnap : Bool)
    (acc : HAcc) : HAcc :=
  if reasoningStartedSnap then
    { acc with out := acc.out ++ [.reasoningEnd reasoningId]
               upd := acc.upd.merge { reasoningStarted := some false } }
  else acc

/-- The `tool-plan-delta` case of the Cohere switch. -/
def cohereCaseToolPlanDelta (event : Json) (reasoningId : String)
    (reasoningStartedSnap : Bool) (acc : HAcc) : HAcc :=
  let planDelta := Json.truthyStr? (Json.jsOrChain
    [Json.oget (Json.oget (event.get? "delta") "message") "tool_plan",
     Json.oget (event.get? "delta") "tool_plan"])
  match planDelta with
  | some s => emitReasoningDelta reasoningId reasoningStartedSnap s acc
  | none => acc

/-- The `tool-call-start` case of the Cohere switch. -/
def cohereCaseToolCallStart (event : Json) (acc : HAcc) : HAcc :=
  let toolCallData := Json.jsOrChain
    [Json.oget (Json.oget (event.get? "delta") "message") "tool_calls",
     Json.oget (event.get? "delta") "tool_calls"]
  match toolCallData with
  | some tcd =>
      if tcd.truthy then
        let g := idOrGen (tcd.get? "id") acc.st.counter
        let toolName := Json.strOr
          [Json.oget (tcd.get? "function") "name", tcd.get? "name"] ""
        { acc with
            out := acc.out ++ [.toolInputStart g.1 toolName]
            st := { toolCalls := mapSet acc.st.toolCalls g.1 toolName ""
                    toolCallsStarted := setAdd acc.st.toolCallsStarted g.1
                    counter := g.2 } }
      else acc
  | none => acc

/-- The `tool-call-delta` case of the Cohere switch. -/
def cohereCaseToolCallDelta (event : Json) (acc : HAcc) : HAcc :=
  let argsDelta := Json.truthyStr? (Json.jsOrChain
    [Json.oget (Json.oget (Json.oget (Json.oget (event.get? "delta") "message")
       "tool_calls") "function") "arguments",
     Json.oget (Json.oget (Json.oget (event.get? "delta") "tool_calls")
       "function") "arguments",
     Json.oget (event.get? "delta") "arguments"])
  match argsDelta with
  | some s =>
      match mapLastKey? acc.st.toolCalls with
      | some currentToolId =>
          match mapGet? acc.st.toolCalls currentToolId with
          | some tc =>
              let st' := ({ acc.st with
                toolCalls := mapSet acc.st.toolCalls currentToolId tc.1 (tc.2 ++ s) })
              { acc with
                  out := acc.out ++ [.toolInputDelta currentToolId s]
                  st := st' }
          | none => acc
      | none => acc
  | none => acc

/-- The `message-end` case of the Cohere switch. -/
def cohereCaseMessageEnd (event : Json) (acc : HAcc) : HAcc :=
  let usage := Json.jsOrChain [Json.oget (event.get? "delta") "usage", event.get? "usage"]
  let acc :=
    match usage with
    | some u =>
        if u.truthy then
          updateUsage
            (Json.jsOrChain
              [Json.oget (u.get? "billed_units") "input_tokens",
               u.get? "inputTokens", u.get? "promptTokens"])
            (Json.jsOrChain
              [Json.oget (u.get? "billed_units") "output_tokens",
               u.get? "outputTokens", u.get? "completionTokens"]) acc
        else acc
    | none => acc
  let reason := Json.jsOrChain
    [Json.oget (event.get? "delta") "finish_reason",
     event.get? "finish_reason", event.get? "finishReason"]
  match reason with
  | some r =>
      if r.truthy then
        { acc with upd := acc.upd.merge { finishReason := some (mapFinishReasonJson (some r)) } }
      else acc
  | none => acc

/-- The default case of the Cohere switch (full `response`/`chatResponse` objects). -/
def cohereCaseDefault (event : Json) (textId : String) (textStartedSnap : Bool)
    (acc : HAcc) : HAcc :=
  let resp := Json.jsOrChain [event.get? "response", event.get? "chatResponse"]
  match resp with
  | some respV =>
      if respV.truthy then
        let acc :=
          match Json.truthyStr? (respV.get? "text") with
          | some s =>
              if !textStartedSnap then
                { acc with
                    out := acc.out ++ [.textStart textId, .textDelta textId s]
                    upd := acc.upd.merge { textStarted := some true } }
              else acc
          | none => acc
        let acc :=
          match Json.asArray? (respV.get? "toolCalls") with
          | some tcs => tcs.foldl cohereRespToolCallStep acc
          | none => acc
        match respV.get? "finishReason" with
        | some r =>
            if r.truthy then setFinishReasonUpd r acc
            else acc
        | none => acc
      else acc
  | none => acc

/-- The `switch (eventType)` of the Cohere handler: one definition per case,
dispatched on the event type; multi-label cases share their case function. -/
def cohereSwitch (event : Json) (textId reasoningId : String)
    (textStartedSnap reasoningStartedSnap : Bool) (acc : HAcc) : HAcc :=
  let eventType := Json.truthyStr? (Json.jsOrChain [event.get? "type", event.get? "eventType"])
  if eventType = some "message-start" then acc
  else if eventType = some "content-start" then
    cohereCaseContentStart textId textStartedSnap acc
  else if eventType = some "content-delta" then
    cohereCaseContentDelta event textId textStartedSnap acc
  else if eventType = some "content-end" then
    cohereCaseContentEnd textId textStartedSnap acc
  else if eventType = some "thinking-start" ∨ eventType = some "reasoning-start" then
    cohereCaseReasoningStart reasoningId reasoningStartedSnap acc
  else if eventType = some "thinking-delta" ∨ eventType = some "reasoning-delta" then
    cohereCaseReasoningDelta event reasoningId reasoningStartedSnap acc
  else if eventType = some "thinking-end" ∨ eventType = some "reasoning-end" then
    cohereCaseReasoningEnd reasoningId reasoningStartedSnap acc
  else if eventType = some "tool-plan-delta" then
    cohereCaseToolPlanDelta event reasoningId reasoningStartedSnap acc
  else if eventType = some "tool-call-start" then
    cohereCaseToolCallStart event acc
  else if eventType = some "tool-call-delta" then
    cohereCaseToolCallDelta event acc
  else if eventType = some "tool-call-end" then acc
  else if eventType = some "message-end" then
    cohereCaseMessageEnd event acc
  else
    cohereCaseDefault event textId textStartedSnap acc

/-- `handleCohereSSEEvent(event, controller, state, updateState)`. -/
def handleCohereSSEEvent (event : Json) (textId reasoningId : String)
    (textStartedSnap reasoningStartedSnap : Bool) (st : StreamSt) : HAcc :=
  let acc : HAcc := { st := st }
  let acc :=
    match Json.asArray? (Json.oget (event.get? "message") "content") with
    | some parts => parts.foldl (cohereContentPartStep textId textStartedSnap) acc
    | none => acc
  let acc :=
    match Json.asArray? (Json.oget (event.get? "message") "toolCalls") with
    | some tcs => tcs.foldl cohereMsgToolCallStep acc
    | none => acc
  let acc :=
    match event.get? "usage" with
    | some u =>
        if u.truthy then
          updateUsage
            (Json.jsOrChain
              [u.get? "inputTokens", u.get? "promptTokens",
               Json.oget (u.get? "billed_units") "input_tokens"])
            (Json.jsOrChain
              [u.get? "outputTokens", u.get? "completionTokens",
               Json.oget (u.get? "billed_units") "output_tokens"]) acc
        else acc
    | none => acc
  let acc :=
    match event.get? "finishReason" with
    | some r =>
        if r.truthy then
          setFinishReasonUpd r acc
        else acc
    | none => acc
  cohereSwitch event textId reasoningId textStartedSnap reasoningStartedSnap acc

/-- One `contentPart` of `event.message.content` in the generic handler. -/
def genericContentPartStep (textId : String) (textStartedSnap : Bool)
    (acc : HAcc) (contentPart : Json) : HAcc :=
  let acc :=
    if contentPart.get? "type" = some (.str "TEXT") then
      match Json.truthyStr? (contentPart.get? "text") with
      | some s => emitTextDelta textId textStartedSnap s acc
      | none => acc
    else acc
  if contentPart.get? "type" = some (.str "TOOL_CALL") ||
      contentPart.get? "type" = some (.str "FUNCTION_CALL") then
    let g := idOrGen (contentPart.get? "id") acc.st.counter
    let toolName := Json.strOr
      [contentPart.get? "name", Json.oget (contentPart.get? "function") "name"] ""
    let input := jsonStringify ((Json.jsOrChain
      [contentPart.get? "parameters", contentPart.get? "args",
       Json.oget (contentPart.get? "function") "arguments"]).getD (.obj []))
    registerToolCallAtomic g.1 toolName input
      { acc with st := { acc.st with counter := g.2 } }
  else acc

/-- One `tc` of `event.message.toolCalls` in the generic handler
(`arguments` may be a pre-serialized string or an object). -/
def genericMsgToolCallStep (acc : HAcc) (tc : Json) : HAcc :=
  let g := idOrGen (tc.get? "id") acc.st.counter
  let toolName := Json.strOr [tc.get? "name", Json.oget (tc.get? "function") "name"] ""
  let rawArgs := Json.jsOrChain
    [tc.get? "arguments", Json.oget (tc.get? "function") "arguments",
     tc.get? "parameters"]
  let input :=
    match rawArgs with
    | some (.str s) => s
    | some v => jsonStringify v
    | none => jsonStringify (.obj [])
  registerToolCallAtomic g.1 toolName input
    { acc with st := { acc.st with counter := g.2 } }

/-- `tc.id || tc.index?.toString() || generateId()`. -/
def idOrIndexOrGen (tc : Json) (counter : Nat) : String × Nat :=
  match Json.truthyStr? (tc.get? "id") with
  | some s => (s, counter)
  | none =>
      match tc.get? "index" with
      | some (.num q) => (toString q, counter)
      | _ => (generateId counter, counter + 1)

/-- One `tc` of the OpenAI-style `delta.tool_calls` in the generic handler:
register the call on first sight, then stream its argument fragment. -/
def genericChoiceToolCallStep (acc : HAcc) (tc : Json) : HAcc :=
  let g := idOrIndexOrGen tc acc.st.counter
  let toolId := g.1
  let funcCall := (Json.jsOrChain [tc.get? "function", some tc]).getD tc
  let toolName := Json.strOr [funcCall.get? "name", tc.get? "name"] ""
  let acc := { acc with st := { acc.st with counter := g.2 } }
  let acc :=
    if !(mapHas acc.st.toolCalls toolId) then
      { acc with st := ({ acc.st with
          toolCalls := mapSet acc.st.toolCalls toolId toolName "" }) }
    else acc
  match Json.truthyStr? (funcCall.get? "arguments") with
  | some args =>
      match mapGet? acc.st.toolCalls toolId with
      | some existing =>
          let startParts :=
            if !(toolId ∈ acc.st.toolCallsStarted) then
              [StreamPart.toolInputStart toolId
                (if existing.1 ≠ "" then existing.1 else toolName)]
            else []
          { acc with
              out := acc.out ++ startParts ++ [.toolInputDelta toolId args]
              st := ({ acc.st with
                toolCalls := mapSet acc.st.toolCalls toolId existing.1 (existing.2 ++ args)
                toolCallsStarted := setAdd acc.st.toolCallsStarted toolId }) }
      | none => acc
  | none => acc

/-- The `event.message.content` phase of the generic handler. -/
def genericMsgContentPhase (textId : String) (textStartedSnap : Bool) (event : Json)
    (acc : HAcc) : HAcc :=
  match Json.asArray? (Json.oget (event.get? "message") "content") with
  | some parts => parts.foldl (genericContentPartStep textId textStartedSnap) acc
  | none => acc

/-- The `event.message.toolCalls` phase of the generic handler. -/
def genericMsgToolCallsPhase (event : Json) (acc : HAcc) : HAcc :=
  match Json.asArray? (Json.oget (event.get? "message") "toolCalls") with
  | some tcs => tcs.foldl genericMsgToolCallStep acc
  | none => acc

/-- The top-level `event.finishReason` phase of the generic handler. -/
def genericFinishPhase (event : Json) (acc : HAcc) : HAcc :=
  match event.get? "finishReason" with
  | some r => if r.truthy then setFinishReasonUpd r acc else acc
  | none => acc

/-- The top-level `event.usage` phase of the generic handler. -/
def genericUsagePhase (event : Json) (acc : HAcc) : HAcc :=
  match event.get? "usage" with
  | some u =>
      if u.truthy then
        updateUsage
          (Json.jsOrChain
            [u.get? "promptTokens", u.get? "inputTokens", u.get? "prompt_tokens"])
          (Json.jsOrChain
            [u.get? "completionTokens", u.get? "outputTokens",
             u.get? "completion_tokens"]) acc
      else acc
  | none => acc

/-- One TEXT part of an array-valued `delta.content` in the generic handler. -/
def genericChoiceContentStep (textId : String) (textStartedSnap : Bool)
    (a : HAcc) (part : Json) : HAcc :=
  if part.get? "type" = some (.str "TEXT") then
    match Json.truthyStr? (part.get? "text") with
    | some s => emitTextDelta textId textStartedSnap s a
    | none => a
  else a

/-- The `delta.content` phase of the generic handler's first choice. -/
def choiceDeltaContentPhase (textId : String) (textStartedSnap : Bool)
    (delta : Option Json) (acc : HAcc) : HAcc :=
  match Json.oget delta "content" with
  | some (.arr parts) =>
      parts.foldl (genericChoiceContentStep textId textStartedSnap) acc
  | some (.str s) =>
      if s ≠ "" then emitTextDelta textId textStartedSnap s acc else acc
  | _ => acc

/-- The `delta.reasoningContent` phase of the generic handler's first choice. -/
def choiceReasoningPhase (swePreset : SWEPreset) (reasoningId : String)
    (reasoningStartedSnap : Bool) (delta : Option Json) (acc : HAcc) : HAcc :=
  match Json.truthyStr? (Json.oget delta "reasoningContent") with
  | some rc =>
      if swePreset.supportsReasoning = some true then
        emitReasoningDelta reasoningId reasoningStartedSnap rc acc
      else acc
  | none => acc

/-- The `delta.tool_calls` phase of the generic handler's first choice. -/
def choiceToolCallsPhase (delta : Option Json) (acc : HAcc) : HAcc :=
  let toolCallsJ := Json.jsOrChain
    [Json.oget delta "tool_calls", Json.oget delta "toolCalls",
     Json.oget delta "function_call"]
  match toolCallsJ with
  | some (.arr tcs) => tcs.foldl genericChoiceToolCallStep acc
  | some v => genericChoiceToolCallStep acc v
  | none => acc

/-- The per-choice `finish_reason` phase of the generic handler. -/
def choiceFinishPhase (choice : Json) (acc : HAcc) : HAcc :=
  match Json.jsOrChain [choice.get? "finish_reason", choice.get? "finishReason"] with
  | some r => if r.truthy then setFinishReasonUpd r acc else acc
  | none => acc

/-- The `choices[0]` block of the generic handler. -/
def genericChoicePhase (swePreset : SWEPreset) (textId reasoningId : String)
    (textStartedSnap reasoningStartedSnap : Bool) (event : Json) (acc : HAcc) : HAcc :=
  let choices := Json.asArray? (Json.jsOrChain
    [event.get? "choices", Json.oget (event.get? "chatResponse") "choices"])
  match choices with
  | some (choice :: _) =>
      let delta := Json.jsOrChain [choice.get? "delta", choice.get? "message"]
      choiceFinishPhase choice
        (choiceToolCallsPhase delta
          (choiceReasoningPhase swePreset reasoningId reasoningStartedSnap delta
            (choiceDeltaContentPhase textId textStartedSnap delta acc)))
  | _ => acc

/-- The trailing `usage` phase of the generic handler (top level or under
`chatResponse`). -/
def genericTrailingUsagePhase (event : Json) (acc : HAcc) : HAcc :=
  match Json.jsOrChain [event.get? "usage", Json.oget (event.get? "chatResponse") "usage"] with
  | some u =>
      if u.truthy then
        updateUsage
          (Json.jsOrChain
            [u.get? "prompt_tokens", u.get? "promptTokens", u.get? "inputTokens"])
          (Json.jsOrChain
            [u.get? "completion_tokens", u.get? "completionTokens",
             u.get? "outputTokens"]) acc
      else acc
  | none => acc

/-- `handleGenericSSEEvent(event, controller, state, swePreset, updateState)`,
as the sequential composition of its phases. -/
def handleGenericSSEEvent (swePreset : SWEPreset) (event : Json)
    (textId reasoningId : String) (textStartedSnap reasoningStartedSnap : Bool)
    (st : StreamSt) : HAcc :=
  genericTrailingUsagePhase event
    (genericChoicePhase swePreset textId reasoningId textStartedSnap reasoningStartedSnap event
      (genericUsagePhase event
        (genericFinishPhase event
          (genericMsgToolCallsPhase event
            (genericMsgContentPhase textId textStartedSnap event ({ st := st } : HAcc))))))

/-! ### The stream loop and end-of-stream flush -/

structure SSEAcc where
  out : List StreamPart := []
  textStarted : Bool := false
  reasoningStarted : Bool := false
  finishReason : FinishReason := .stop
  promptTokens : Rat := 0
  completionTokens : Rat := 0
  st : StreamSt := {}
deriving Repr, DecidableEq, Inhabited

/-- Fold an event's accumulated `updateState` fields into the loop state. -/
def applyUpdates (acc : SSEAcc) (u : FlagUpdates) : SSEAcc :=
  { acc with
      textStarted := u.textStarted.getD acc.textStarted
      reasoningStarted := u.reasoningStarted.getD acc.reasoningStarted
      finishReason := u.finishReason.getD acc.finishReason
      promptTokens := u.promptTokens.getD acc.promptTokens
      completionTokens := u.completionTokens.getD acc.completionTokens }

/-- Handling of one parsed SSE event inside the read loop. -/
def sseStep (modelFamily : ModelFamily) (swePreset : SWEPreset)
    (textId reasoningId : String) (acc : SSEAcc) (event : Json) : SSEAcc :=
  let h :=
    match modelFamily with
    | .cohere | .cohereV2 =>
        handleCohereSSEEvent event textId reasoningId
          acc.textStarted acc.reasoningStarted acc.st
    | .generic =>
        handleGenericSSEEvent swePreset event textId reasoningId
          acc.textStarted acc.reasoningStarted acc.st
  { applyUpdates acc h.upd with out := acc.out ++ h.out, st := h.st }

/-- The end-of-stream flush of `handleSSEStream`: close open spans, emit
completed tool calls (`tool-input-start` for ids never started, then
`tool-input-end`, then the `tool-call` summary), force the finish reason to
`tool-calls` when any tool call was observed, and emit the finish event. -/
def sseFlush (textId reasoningId : String) (acc : SSEAcc) : List StreamPart :=
  (if acc.textStarted then [StreamPart.textEnd textId] else []) ++
  (if acc.reasoningStarted then [StreamPart.reasoningEnd reasoningId] else []) ++
  (acc.st.toolCalls.flatMap fun tc =>
    (if tc.1 ∈ acc.st.toolCallsStarted then [] else [StreamPart.toolInputStart tc.1 tc.2.1]) ++
    [StreamPart.toolInputEnd tc.1, StreamPart.toolCallSummary tc.1 tc.2.1 tc.2.2]) ++
  [StreamPart.finish
    (if acc.st.toolCalls.length > 0 then .toolCalls else acc.finishReason)
    (createUsage (some acc.promptTokens) (some acc.completionTokens))]

/-- `handleSSEStream(sseStream, controller, modelFamily, swePreset, …)` on the
list of successfully parsed events. -/
def handleSSEStream (modelFamily : ModelFamily) (swePreset : SWEPreset)
    (textId reasoningId : String) (events : List Json) : List StreamPart :=
  let acc := events.foldl (sseStep modelFamily swePreset textId reasoningId) {}
  acc.out ++ sseFlush textId reasoningId acc

/-! ## Model-id string facts -/

theorem getModelProvider_cohere (m : String) (h : jsStartsWith m "cohere." = true) :
    getModelProvider m = "cohere" := by
  rw [jsStartsWith] at h
  rw [ List.isPrefixOf_iff_prefix] at h
  obtain ⟨t, ht⟩ := h
  have hd : m.data = 'c':: 'o':: 'h':: 'e':: 'r':: 'e':: '.'::t := ht.symm
  unfold getModelProvider splitDotHead
  rw [hd]
  rfl

theorem getModelProvider_xai (m : String) (h : jsStartsWith m "xai." = true) :
    getModelProvider m = "xai" := by
  rw [jsStartsWith] at h
  rw [ List.isPrefixOf_iff_prefix] at h
  obtain ⟨t, ht⟩ := h
  have hd : m.data = 'x':: 'a':: 'i':: '.'::t := ht.symm
  unfold getModelProvider splitDotHead
  rw [hd]
  rfl

theorem getModelProvider_google (m : String) (h : jsStartsWith m "google." = true) :
    getModelProvider m = "google" := by
  rw [jsStartsWith] at h
  rw [ List.isPrefixOf_iff_prefix] at h
  obtain ⟨t, ht⟩ := h
  have hd : m.data = 'g':: 'o':: 'o':: 'g':: 'l':: 'e':: '.'::t := ht.symm
  unfold getModelProvider splitDotHead
  rw [hd]
  rfl

/-- Two prefixes that disagree on their first character cannot both hold. -/
theorem not_prefix_of_head_ne (m p q : String) (c d : Char) (cs ds : List Char)
    (hp : p.data = c :: cs) (hq : q.data = d :: ds) (hcd : c ≠ d)
    (h : jsStartsWith m p = true) : jsStartsWith m q = false := by
  cases hmq : jsStartsWith m q with
  | false => rfl
  | true =>
      rw [jsStartsWith] at h hmq
      rw [ List.isPrefixOf_iff_prefix] at h hmq
      obtain ⟨t1, ht1⟩ := h
      obtain ⟨t2, ht2⟩ := hmq
      rw [hp] at ht1
      rw [hq] at ht2
      have : c :: (cs ++ t1) = d :: (ds ++ t2) := by
        simpa using ht1.trans ht2.symm
      exact absurd (List.cons_eq_cons.mp this).1 hcd

theorem xai_not_cohere (m : String) (h : jsStartsWith m "xai." = true) :
    jsStartsWith m "cohere." = false :=
  not_prefix_of_head_ne m "xai." "cohere." 'x' 'c' _ _ rfl rfl (by decide) h

theorem google_not_cohere (m : String) (h : jsStartsWith m "google." = true) :
    jsStartsWith m "cohere." = false :=
  not_prefix_of_head_ne m "google." "cohere." 'g' 'c' _ _ rfl rfl (by decide) h

theorem google_not_xai (m : String) (h : jsStartsWith m "google." = true) :
    jsStartsWith m "xai." = false :=
  not_prefix_of_head_ne m "google." "xai." 'g' 'x' _ _ rfl rfl (by decide) h

theorem google_not_llama (m : String) (h : jsStartsWith m "google." = true) :
    jsStartsWith m "meta.llama" = false :=
  not_prefix_of_head_ne m "google." "meta.llama" 'g' 'm' _ _ rfl rfl (by decide) h

/-- All `getSWEPreset` overrides only touch `supportsReasoning`. -/
theorem getSWEPreset_supportsPenalties (m : String) :
    (getSWEPreset m).supportsPenalties =
      (SWE_PRESETS (getModelProvider m)).supportsPenalties := by
  unfold getSWEPreset
  split_ifs <;> rfl

theorem SWE_PRESETS_supportsPenalties_false_iff (p : String) :
    (SWE_PRESETS p).supportsPenalties = false ↔ p = "google" ∨ p = "xai" := by
  unfold SWE_PRESETS
  split_ifs with h1 h2 h3 h4 h5 <;> simp_all

/-- A model whose preset disables penalties is never a Cohere-family model:
its vendor prefix is `google` or `xai`, so the request built for it is the
generic builder's. -/
theorem penalties_false_family_generic (m : String)
    (h : (getSWEPreset m).supportsPenalties = false) :
    getModelFamily m = .generic := by
  rw [getSWEPreset_supportsPenalties] at h
  have hp := (SWE_PRESETS_supportsPenalties_false_iff _).mp h
  unfold getModelFamily
  cases hc : jsStartsWith m "cohere." with
  | false => simp [hc]
  | true =>
      have := getModelProvider_cohere m hc
      rcases hp with h' | h' <;> simp_all

/-! ## Resolution of the claims -/

/-- C1.  The finish-reason normalizer.  The spec's table rows for
`MAX_TOKENS|length`, `COMPLETE|stop|STOP`, `TOOL_CALL|tool_calls|TOOL_USE`,
`CONTENT_FILTER|content_filter`, and the unknown-code default all hold, but
the rows `ERROR_TOXIC → content-filter`, `ERROR|ERROR_LIMIT → error` and
`USER_CANCEL → other` do not: `mapFinishReason` has no cases for those codes,
so all four fall through to the default `'stop'` — contradicting the spec's
bit-exact table, the repository's own test suite (which expects
`content-filter`/`error`/`error`/`other` for them) and its changelog. -/
theorem claim_C1_mapFinishReason_table :
    mapFinishReason (some "MAX_TOKENS") = .length ∧
    mapFinishReason (some "length") = .length ∧
    mapFinishReason (some "COMPLETE") = .stop ∧
    mapFinishReason (some "stop") = .stop ∧
    mapFinishReason (some "STOP") = .stop ∧
    mapFinishReason (some "TOOL_CALL") = .toolCalls ∧
    mapFinishReason (some "tool_calls") = .toolCalls ∧
    mapFinishReason (some "TOOL_USE") = .toolCalls ∧
    mapFinishReason (some "CONTENT_FILTER") = .contentFilter ∧
    mapFinishReason (some "content_filter") = .contentFilter ∧
    mapFinishReason none = .stop ∧
    mapFinishReason (some "SOME_UNKNOWN_CODE") = .stop ∧
    mapFinishReason (some "ERROR_TOXIC") = .stop ∧
    mapFinishReason (some "ERROR") = .stop ∧
    mapFinishReason (some "ERROR_LIMIT") = .stop ∧
    mapFinishReason (some "USER_CANCEL") = .stop := by
  repeat constructor

/-- C2.  The schema sanitizer is idempotent on every JSON value — objects,
arrays and primitives included. -/
theorem claim_C2_sanitizer_idempotent (s : Json) :
    cleanJsonSchema (cleanJsonSchema s) = cleanJsonSchema s :=
  cleanJsonSchema_idem s

/-- C3.  `pattern`/`format` disambiguation: an object binding named
`pattern` or `format` is dropped by the sanitizer exactly when its value is a
string and the node's own `type` is `"string"` (first conjunct, through the
per-entry decision function that the field loop realizes — second conjunct);
in particular `\x7btype:"string", pattern:"^[a-z]+$"\x7d` loses `pattern`
while a `pattern` property under `properties` of an object-typed schema is
preserved verbatim. -/
theorem claim_C3_pattern_format_disambiguation :
    (∀ (t : Option Json) (k : String) (v : Json), k = "pattern" ∨ k = "format" →
      (cleanEntry t k v = none ↔ (v.isStr ∧ t = some (.str "string")))) ∧
    (∀ fs : List (String × Json), cleanJsonSchema (.obj fs) =
      .obj (fs.filterMap fun p => cleanEntry (lookupField fs "type") p.1 p.2)) ∧
    cleanJsonSchema (.obj [("type", .str "string"), ("pattern", .str "^[a-z]+$")]) =
      .obj [("type", .str "string")] ∧
    cleanJsonSchema (.obj [("type", .str "object"),
        ("properties", .obj [("pattern", .obj [("type", .str "string")])])]) =
      .obj [("type", .str "object"),
        ("properties", .obj [("pattern", .obj [("type", .str "string")])])] := by
  refine ⟨?_, ?_, by decide, by decide⟩
  · intro t k v hk
    rcases hk with hk | hk <;> subst hk <;>
      constructor <;> intro h
    · by_cases h2 : ("pattern" : String) = "pattern" ∧ v.isStr ∧ t = some (.str "string")
      · exact ⟨h2.2.1, h2.2.2⟩
      · rw [cleanEntry, if_neg (by decide), if_neg h2, if_neg (by simp)] at h
        exact absurd h (by simp)
    · rw [cleanEntry, if_neg (by decide), if_pos ⟨rfl, h.1, h.2⟩]
    · by_cases h2 : ("format" : String) = "format" ∧ v.isStr ∧ t = some (.str "string")
      · exact ⟨h2.2.1, h2.2.2⟩
      · rw [cleanEntry, if_neg (by decide), if_neg (by simp), if_neg h2] at h
        exact absurd h (by simp)
    · rw [cleanEntry, if_neg (by decide), if_neg (by simp [h.1, h.2]), if_pos ⟨rfl, h.1, h.2⟩]
  · intro fs
    rw [cleanJsonSchema, cleanFields_eq_filterMap]

/-- C7.  For every model whose capability preset has
`supportsPenalties = false`, the request is built by the generic builder
(those presets belong to the `google`/`xai` vendor prefixes, never to a
Cohere-family id), and that built request carries neither a
`frequencyPenalty` nor a `presencePenalty` field — whatever penalty values
the caller supplies in the generation options. -/
theorem claim_C7_penalty_omission (m : String) (options : CallOptions)
    (h : (getSWEPreset m).supportsPenalties = false) :
    getModelFamily m = .generic ∧
    (buildGenericChatRequest m options).frequencyPenalty = none ∧
    (buildGenericChatRequest m options).presencePenalty = none := by
  refine ⟨penalties_false_family_generic m h, ?_, ?_⟩ <;>
    simp [buildGenericChatRequest, h]

theorem claim_C7_witness :
    (getSWEPreset "xai.grok-4-1-fast-reasoning").supportsPenalties = false ∧
    (buildGenericChatRequest "xai.grok-4-1-fast-reasoning"
      { prompt := [], frequencyPenalty := some 1, presencePenalty := some 1 }).frequencyPenalty
        = none ∧
    (buildGenericChatRequest "xai.grok-4-1-fast-reasoning"
      { prompt := [], frequencyPenalty := some 1, presencePenalty := some 1 }).presencePenalty
        = none :=
  ⟨by decide,
   (claim_C7_penalty_omission "xai.grok-4-1-fast-reasoning"
     { prompt := [], frequencyPenalty := some 1, presencePenalty := some 1 } (by decide)).2.1,
   (claim_C7_penalty_omission "xai.grok-4-1-fast-reasoning"
     { prompt := [], frequencyPenalty := some 1, presencePenalty := some 1 } (by decide)).2.2⟩

/-- C8.  An xAI model id (prefix `xai.`) always resolves to the generic
builder, and that builder never emits a `reasoningEffort` parameter for it —
even when the resolved preset has `supportsReasoning = some true`; and for
every xAI id not containing `flash-lite` (no real xAI variant does), the
resolved preset has `supportsReasoning = some true` exactly when the id ends
in `-reasoning` or contains `grok-3-mini`, and does not contain
`-non-reasoning` — reasoning is selected by model-variant name only. -/
theorem claim_C8_xai_no_reasoning_param (m : String) (options : CallOptions)
    (h : jsStartsWith m "xai." = true) :
    (buildGenericChatRequest m options).reasoningEffort = none ∧
    getModelFamily m = .generic ∧
    (jsIncludes m "flash-lite" = false →
      ((getSWEPreset m).supportsReasoning = some true ↔
        ((jsEndsWith m "-reasoning" || jsIncludes m "grok-3-mini") &&
          !jsIncludes m "-non-reasoning") = true)) := by
  refine ⟨?_, ?_, ?_⟩
  · simp [buildGenericChatRequest, h]
  · unfold getModelFamily
    simp [xai_not_cohere m h]
  · intro hf
    unfold getSWEPreset
    simp [hf, h]

theorem claim_C8_witness :
    (buildGenericChatRequest "xai.grok-4-1-fast-reasoning"
        { prompt := [], ociGenai := some { reasoningEffort := some "HIGH" } }).reasoningEffort
      = none ∧
    (getSWEPreset "xai.grok-4-1-fast-reasoning").supportsReasoning = some true :=
  ⟨(claim_C8_xai_no_reasoning_param "xai.grok-4-1-fast-reasoning"
      { prompt := [], ociGenai := some { reasoningEffort := some "HIGH" } } (by decide)).1,
   by decide⟩

/-! ### Invariants of the legacy Cohere conversion (for C4 and C10) -/

/-- Proof-only decomposition of the message loop: the state after processing
`xs` when the messages `ys` still follow (the loop body's lookahead sees
`rest ++ ys`). -/
def cohereConvPrefixRun (st : CohereConvState) : List Message → List Message →
    CohereConvState
  | [], _ => st
  | x :: rest, ys => cohereConvPrefixRun (cohereConvStep st x (rest ++ ys)) rest ys

theorem cohereConvLoop_append (st : CohereConvState) (xs ys : List Message) :
    cohereConvLoop st (xs ++ ys) = cohereConvLoop (cohereConvPrefixRun st xs ys) ys := by
  induction xs generalizing st with
  | nil => rfl
  | cons x rest ih => simpa [cohereConvLoop, cohereConvPrefixRun] using ih _

/-- `cohereToolStep` only appends to the accumulated tool results. -/
theorem cohereToolStep_append (parts : List ContentPart)
    (hist : List CohereHistEntry) (trs : List CohereToolResult) :
    ∃ ext, cohereToolStep hist trs parts = trs ++ ext := by
  induction parts generalizing trs with
  | nil => exact ⟨[], by simp [cohereToolStep]⟩
  | cons p rest ih =>
      cases p with
      | toolResult id n out =>
          rw [cohereToolStep]
          split
          · obtain ⟨ext, hext⟩ := ih (trs ++ [_])
            exact ⟨_ :: ext, by simpa using hext⟩
          · exact ih trs
      | text t => exact ih trs
      | file a b => exact ih trs
      | toolCall a b c => exact ih trs

/-- One loop step only appends to the accumulated tool results. -/
theorem cohereConvStep_toolResults (st : CohereConvState) (msg : Message)
    (rest : List Message) :
    ∃ ext, (cohereConvStep st msg rest).toolResults = st.toolResults ++ ext := by
  cases msg with
  | system c => exact ⟨[], by simp [cohereConvStep]⟩
  | user parts =>
      simp only [cohereConvStep]
      split
      · exact ⟨[], by simp⟩
      · exact ⟨[], by simp⟩
  | assistant parts =>
      simp only [cohereConvStep]
      split
      · exact ⟨[], by simp⟩
      · split
        · exact ⟨[], by simp⟩
        · exact ⟨[], by simp⟩
  | tool parts => exact cohereToolStep_append parts st.chatHistory st.toolResults

/-- One loop step only appends to the chat history. -/
theorem cohereConvStep_chatHistory (st : CohereConvState) (msg : Message)
    (rest : List Message) :
    ∃ ext, (cohereConvStep st msg rest).chatHistory = st.chatHistory ++ ext := by
  cases msg with
  | system c => exact ⟨[], by simp [cohereConvStep]⟩
  | user parts =>
      simp only [cohereConvStep]
      split
      · exact ⟨[], by simp⟩
      · exact ⟨_, rfl⟩
  | assistant parts =>
      simp only [cohereConvStep]
      split
      · exact ⟨_, rfl⟩
      · split
        · exact ⟨_, rfl⟩
        · exact ⟨[], by simp⟩
  | tool parts => exact ⟨[], by simp [cohereConvStep]⟩

/-- A CHATBOT history entry carrying a non-empty tool-call list exists. -/
def HistReady (hist : List CohereHistEntry) : Prop :=
  ∃ e ∈ hist, e.role = "CHATBOT" ∧ ∃ tcs, e.toolCalls = some tcs ∧ tcs ≠ []

/-- Every history entry that carries `toolCalls` carries a non-empty list
(the conversion only attaches `toolCalls` when tool-call parts exist). -/
def HistWF (hist : List CohereHistEntry) : Prop :=
  ∀ e ∈ hist, ∀ tcs, e.toolCalls = some tcs → tcs ≠ []

/-- No history entry carries `toolCalls` at all. -/
def HistNoCalls (hist : List CohereHistEntry) : Prop :=
  ∀ e ∈ hist, e.toolCalls = none

theorem histReady_append (hist ext : List CohereHistEntry) (h : HistReady hist) :
    HistReady (hist ++ ext) := by
  obtain ⟨e, he, hrest⟩ := h
  exact ⟨e, List.mem_append_left _ he, hrest⟩

theorem cohereConvStep_histReady (st : CohereConvState) (msg : Message)
    (rest : List Message) (h : HistReady st.chatHistory) :
    HistReady (cohereConvStep st msg rest).chatHistory := by
  obtain ⟨ext, hext⟩ := cohereConvStep_chatHistory st msg rest
  rw [hext]
  exact histReady_append _ _ h

theorem cohereConvStep_histWF (st : CohereConvState) (msg : Message)
    (rest : List Message) (h : HistWF st.chatHistory) :
    HistWF (cohereConvStep st msg rest).chatHistory := by
  cases msg with
  | system c => simpa [cohereConvStep] using h
  | user parts =>
      simp only [cohereConvStep]
      split
      · simpa using h
      · intro e he tcs htcs
        simp only [List.mem_append, List.mem_singleton] at he
        rcases he with he | he
        · exact h e he tcs htcs
        · subst he; simp at htcs
  | assistant parts =>
      simp only [cohereConvStep]
      split
      · next hlen =>
          intro e he tcs htcs
          simp only [List.mem_append, List.mem_singleton] at he
          rcases he with he | he
          · exact h e he tcs htcs
          · subst he
            have heq : toolCallEntriesOfParts parts = tcs := by simpa using htcs
            subst heq
            exact List.length_pos.mp hlen
      · split
        · intro e he tcs htcs
          simp only [List.mem_append, List.mem_singleton] at he
          rcases he with he | he
          · exact h e he tcs htcs
          · subst he; simp at htcs
        · simpa using h
  | tool parts => simpa [cohereConvStep] using h

theorem cohereConvLoop_toolResults (msgs : List Message) (st : CohereConvState) :
    ∃ ext, (cohereConvLoop st msgs).toolResults = st.toolResults ++ ext := by
  induction msgs generalizing st with
  | nil => exact ⟨[], by simp [cohereConvLoop]⟩
  | cons msg rest ih =>
      rw [cohereConvLoop]
      obtain ⟨e1, h1⟩ := cohereConvStep_toolResults st msg rest
      obtain ⟨e2, h2⟩ := ih (cohereConvStep st msg rest)
      exact ⟨e1 ++ e2, by rw [h2, h1, List.append_assoc]⟩

theorem cohereConvLoop_histReady (msgs : List Message) (st : CohereConvState)
    (h : HistReady st.chatHistory) :
    HistReady (cohereConvLoop st msgs).chatHistory := by
  induction msgs generalizing st with
  | nil => simpa [cohereConvLoop] using h
  | cons msg rest ih =>
      rw [cohereConvLoop]
      exact ih _ (cohereConvStep_histReady st msg rest h)

theorem cohereConvLoop_histWF (msgs : List Message) (st : CohereConvState)
    (h : HistWF st.chatHistory) :
    HistWF (cohereConvLoop st msgs).chatHistory := by
  induction msgs generalizing st with
  | nil => simpa [cohereConvLoop] using h
  | cons msg rest ih =>
      rw [cohereConvLoop]
      exact ih _ (cohereConvStep_histWF st msg rest h)

theorem cohereConvPrefixRun_histWF (xs ys : List Message) (st : CohereConvState)
    (h : HistWF st.chatHistory) :
    HistWF (cohereConvPrefixRun st xs ys).chatHistory := by
  induction xs generalizing st with
  | nil => simpa [cohereConvPrefixRun] using h
  | cons x rest ih =>
      rw [cohereConvPrefixRun]
      exact ih _ (cohereConvStep_histWF st x (rest ++ ys) h)

/-- Under a ready and well-formed history, processing a tool message that
contains a tool-result part produces a non-empty result list (and an already
non-empty list stays non-empty). -/
theorem cohereToolStep_nonempty (parts : List ContentPart)
    (hist : List CohereHistEntry) (trs : List CohereToolResult)
    (hready : HistReady hist) (hwf : HistWF hist)
    (h : trs ≠ [] ∨ ∃ p ∈ parts, ∃ id n out, p = ContentPart.toolResult id n out) :
    cohereToolStep hist trs parts ≠ [] := by
  induction parts generalizing trs with
  | nil =>
      rcases h with h | h
      · simpa [cohereToolStep] using h
      · simp at h
  | cons p rest ih =>
      cases p with
      | toolResult id n out =>
          rw [cohereToolStep]
          have hfind : (hist.reverse.find? fun m =>
              m.role = "CHATBOT" && m.toolCalls.isSome).isSome = true := by
            rw [List.find?_isSome]
            obtain ⟨e, he, hrole, tcs, htcs, hne⟩ := hready
            exact ⟨e, List.mem_reverse.mpr he, by simp [hrole, htcs]⟩
          obtain ⟨m, hm⟩ := Option.isSome_iff_exists.mp hfind
          have hmem : m ∈ hist := List.mem_reverse.mp (List.mem_of_find?_eq_some hm)
          have hpred := List.find?_some hm
          simp only [Bool.and_eq_true, decide_eq_true_eq, Option.isSome_iff_exists] at hpred
          obtain ⟨hrole, tcs, htcs⟩ := hpred
          have hne := hwf m hmem tcs htcs
          rw [hm]
          simp only [htcs]
          cases tcs with
          | nil => exact absurd rfl hne
          | cons tc tcrest =>
              simp only [List.find?]
              exact ih _ (Or.inl (by simp))
      | text t =>
          refine ih trs ?_
          rcases h with h | ⟨p, hp, hex⟩
          · exact Or.inl h
          · rcases List.mem_cons.mp hp with rfl | hp
            · obtain ⟨_, _, _, h'⟩ := hex; cases h'
            · exact Or.inr ⟨p, hp, hex⟩
      | file a b =>
          refine ih trs ?_
          rcases h with h | ⟨p, hp, hex⟩
          · exact Or.inl h
          · rcases List.mem_cons.mp hp with rfl | hp
            · obtain ⟨_, _, _, h'⟩ := hex; cases h'
            · exact Or.inr ⟨p, hp, hex⟩
      | toolCall a b c =>
          refine ih trs ?_
          rcases h with h | ⟨p, hp, hex⟩
          · exact Or.inl h
          · rcases List.mem_cons.mp hp with rfl | hp
            · obtain ⟨_, _, _, h'⟩ := hex; cases h'
            · exact Or.inr ⟨p, hp, hex⟩

/-- Under a ready and well-formed history, the rest of the loop keeps the
result list non-empty once a tool message with a result is reached (or the
list is already non-empty). -/
theorem cohereConvLoop_toolResults_nonempty (msgs : List Message)
    (st : CohereConvState) (hready : HistReady st.chatHistory)
    (hwf : HistWF st.chatHistory)
    (h : st.toolResults ≠ [] ∨ ∃ parts, Message.tool parts ∈ msgs ∧
      ∃ p ∈ parts, ∃ id n out, p = ContentPart.toolResult id n out) :
    (cohereConvLoop st msgs).toolResults ≠ [] := by
  induction msgs generalizing st with
  | nil =>
      rcases h with h | ⟨parts, hmem, _⟩
      · simpa [cohereConvLoop] using h
      · simp at hmem
  | cons msg rest ih =>
      rw [cohereConvLoop]
      have hready' := cohereConvStep_histReady st msg rest hready
      have hwf' := cohereConvStep_histWF st msg rest hwf
      rcases h with h | ⟨parts, hmem, hres⟩
      · refine ih _ hready' hwf' (Or.inl ?_)
        obtain ⟨ext, hext⟩ := cohereConvStep_toolResults st msg rest
        rw [hext]
        simp [h]
      · rcases List.mem_cons.mp hmem with rfl | hmem
        · refine ih _ hready' hwf' (Or.inl ?_)
          exact cohereToolStep_nonempty parts st.chatHistory st.toolResults
            hready hwf (Or.inr hres)
        · exact ih _ hready' hwf' (Or.inr ⟨parts, hmem, hres⟩)

/-- An assistant message with at least one tool-call part makes the history
ready. -/
theorem cohereConvStep_assistant_ready (st : CohereConvState)
    (parts : List ContentPart) (rest : List Message)
    (h : toolCallEntriesOfParts parts ≠ []) :
    HistReady (cohereConvStep st (.assistant parts) rest).chatHistory := by
  simp only [cohereConvStep]
  rw [if_pos (List.length_pos.mpr h)]
  exact ⟨_, List.mem_append_right _ (List.mem_singleton_self _), rfl, _, rfl, h⟩

theorem claim_C4_helper_no_tool (msgs : List Message) (st : CohereConvState)
    (h : ∀ parts, Message.tool parts ∉ msgs) :
    (cohereConvLoop st msgs).toolResults = st.toolResults := by
  induction msgs generalizing st with
  | nil => simp [cohereConvLoop]
  | cons msg rest ih =>
      rw [cohereConvLoop]
      rw [ih _ (fun parts hp => h parts (List.mem_cons_of_mem _ hp))]
      cases msg with
      | system c => rfl
      | user parts =>
          simp only [cohereConvStep]
          split
          · rfl
          · rfl
      | assistant parts =>
          simp only [cohereConvStep]
          split
          · rfl
          · split
            · rfl
            · rfl
      | tool parts => exact absurd (List.mem_cons_self _ _) (h parts)

/-- C4.  Legacy (step-forcing) Cohere builder: a prompt in which an
assistant message with a tool-call part precedes a tool message with a
tool-result part yields a built request with a non-empty `toolResults` array
and `isForceSingleStep = true`; a prompt without any tool message yields a
request with neither property. -/
theorem claim_C4_legacy_tool_results_and_flag (modelId : String)
    (options : CallOptions) :
    (∀ pre aparts mid tparts post,
      options.prompt =
        pre ++ Message.assistant aparts :: (mid ++ Message.tool tparts :: post) →
      toolCallEntriesOfParts aparts ≠ [] →
      (∃ p ∈ tparts, ∃ id n out, p = ContentPart.toolResult id n out) →
      ∃ trs, trs ≠ [] ∧
        (buildCohereChatRequest modelId options).toolResults = some trs ∧
        (buildCohereChatRequest modelId options).isForceSingleStep = some true) ∧
    ((∀ parts, Message.tool parts ∉ options.prompt) →
      (buildCohereChatRequest modelId options).toolResults = none ∧
      (buildCohereChatRequest modelId options).isForceSingleStep = none) := by
  constructor
  · intro pre aparts mid tparts post hprompt hcalls hres
    have hconv : (convertMessagesToCohereFormat options.prompt).toolResults ≠ [] := by
      unfold convertMessagesToCohereFormat
      rw [hprompt, cohereConvLoop_append, cohereConvLoop]
      apply cohereConvLoop_toolResults_nonempty
      · exact cohereConvStep_assistant_ready _ _ _ hcalls
      · apply cohereConvStep_histWF
        apply cohereConvPrefixRun_histWF
        intro e he _ _
        simp at he
      · exact Or.inr ⟨tparts, by simp, hres⟩
    refine ⟨(convertMessagesToCohereFormat options.prompt).toolResults, hconv, ?_, ?_⟩ <;>
      simp [buildCohereChatRequest, List.length_pos.mpr hconv]
  · intro hno
    have hconv : (convertMessagesToCohereFormat options.prompt).toolResults = [] := by
      unfold convertMessagesToCohereFormat
      rw [claim_C4_helper_no_tool _ _ hno]
    constructor <;> simp [buildCohereChatRequest, hconv]

/-- With a history carrying no `toolCalls` at all, every tool-result part is
unmatched: the lookup fails and nothing is appended. -/
theorem cohereToolStep_noCalls (parts : List ContentPart)
    (hist : List CohereHistEntry) (trs : List CohereToolResult)
    (h : HistNoCalls hist) : cohereToolStep hist trs parts = trs := by
  induction parts generalizing trs with
  | nil => simp [cohereToolStep]
  | cons p rest ih =>
      cases p with
      | toolResult id n out =>
          rw [cohereToolStep]
          have hf : (hist.reverse.find? fun m =>
              m.role = "CHATBOT" && m.toolCalls.isSome) = none := by
            rw [List.find?_eq_none]
            intro m hm
            simp [h m (List.mem_reverse.mp hm)]
          rw [hf]
          exact ih trs
      | text t => exact ih trs
      | file a b => exact ih trs
      | toolCall a b c => exact ih trs

theorem cohereConvStep_noCalls (st : CohereConvState) (msg : Message)
    (rest : List Message) (hhist : HistNoCalls st.chatHistory)
    (hmsg : ∀ parts, msg = Message.assistant parts → toolCallEntriesOfParts parts = []) :
    HistNoCalls (cohereConvStep st msg rest).chatHistory ∧
      (cohereConvStep st msg rest).toolResults = st.toolResults := by
  cases msg with
  | system c => exact ⟨hhist, rfl⟩
  | user parts =>
      simp only [cohereConvStep]
      split
      · exact ⟨hhist, rfl⟩
      · refine ⟨?_, rfl⟩
        intro e he
        rcases List.mem_append.mp he with he | he
        · exact hhist e he
        · simp only [List.mem_singleton] at he
          subst he
          rfl
  | assistant parts =>
      have hcalls := hmsg parts rfl
      simp only [cohereConvStep]
      rw [if_neg (by simp [hcalls])]
      split
      · refine ⟨?_, rfl⟩
        intro e he
        rcases List.mem_append.mp he with he | he
        · exact hhist e he
        · simp only [List.mem_singleton] at he
          subst he
          rfl
      · exact ⟨hhist, rfl⟩
  | tool parts =>
      exact ⟨hhist, cohereToolStep_noCalls parts st.chatHistory st.toolResults hhist⟩

theorem cohereConvLoop_noCalls (msgs : List Message) (st : CohereConvState)
    (hhist : HistNoCalls st.chatHistory)
    (hmsgs : ∀ parts, Message.assistant parts ∈ msgs →
      toolCallEntriesOfParts parts = []) :
    (cohereConvLoop st msgs).toolResults = st.toolResults := by
  induction msgs generalizing st with
  | nil => simp [cohereConvLoop]
  | cons msg rest ih =>
      rw [cohereConvLoop]
      obtain ⟨hhist', heq⟩ := cohereConvStep_noCalls st msg rest hhist
        (fun parts hp => hmsgs parts (hp ▸ List.mem_cons_self _ _))
      rw [ih _ hhist' (fun parts hp => hmsgs parts (List.mem_cons_of_mem _ hp)), heq]

/-- C10.  When no assistant message in the prompt carries a tool-call part,
the accumulated chat history never holds a CHATBOT entry with tool calls, so
every tool-result part is unmatched: the conversion completes (it is a total
function), contributes no `toolResults` entry, and the built request omits
both `toolResults` and `isForceSingleStep`. -/
theorem claim_C10_unmatched_tool_result (modelId : String) (options : CallOptions)
    (h : ∀ parts, Message.assistant parts ∈ options.prompt →
      toolCallEntriesOfParts parts = []) :
    (convertMessagesToCohereFormat options.prompt).toolResults = [] ∧
    (buildCohereChatRequest modelId options).toolResults = none ∧
    (buildCohereChatRequest modelId options).isForceSingleStep = none := by
  have hconv : (convertMessagesToCohereFormat options.prompt).toolResults = [] := by
    unfold convertMessagesToCohereFormat
    rw [cohereConvLoop_noCalls _ _ (by intro e he; simp at he) h]
  refine ⟨hconv, ?_, ?_⟩ <;> simp [buildCohereChatRequest, hconv]

theorem claim_C10_witness :
    (convertMessagesToCohereFormat
        [Message.tool [ContentPart.toolResult "id1" none (.text "out")]]).toolResults
      = [] ∧
    (buildCohereChatRequest "cohere.command-r-plus"
        { prompt := [Message.tool [ContentPart.toolResult "id1" none (.text "out")]] }).toolResults
      = none ∧
    (buildCohereChatRequest "cohere.command-r-plus"
        { prompt := [Message.tool [ContentPart.toolResult "id1" none (.text "out")]] }).isForceSingleStep
      = none :=
  claim_C10_unmatched_tool_result "cohere.command-r-plus"
    { prompt := [Message.tool [ContentPart.toolResult "id1" none (.text "out")]] }
    (by intro parts hp; simp at hp)

/-! ### The Google assistant-message conversion (for C5) -/

/-- The `tool-call` parts of an assistant message. -/
def toolCallPartsOf (parts : List ContentPart) : List (String × String × Json) :=
  parts.filterMap fun p =>
    match p with
    | .toolCall id name input => some (id, name, input)
    | _ => none

theorem assistantAccParts_google (parts : List ContentPart) :
    assistantAccParts false false true parts =
      (parts.filterMap (fun p => match p with
         | ContentPart.text t => some (GenChatContent.text t)
         | _ => none),
       (toolCallPartsOf parts).map (fun c => toolCallTextGoogle c.2.1 c.1 (toolCallArgs c.2.2)),
       (toolCallPartsOf parts).map (fun c =>
         GenToolCall.mk "FUNCTION" c.1 c.2.1 (toolCallArgs c.2.2))) := by
  induction parts with
  | nil => rfl
  | cons p rest ih =>
      cases p <;> simp [assistantAccParts, toolCallPartsOf, ih, List.filterMap_cons]

/-- C5.  Native-tool-call (Google) family: for a `google.` model the generic
converter maps an assistant message through `convertAssistantGeneric` with
exactly the Google flags; one tool-call part becomes a single-element native
`toolCalls` array, while two or more tool-call parts leave `toolCalls` absent
and instead render every call as a textual directive
`[Called tool "<name>" (<id>) with: <args>]` inside the message's first text
content (the directive block is a suffix of that text). -/
theorem claim_C5_google_parallel_tool_calls (modelId : String)
    (hG : jsStartsWith modelId "google." = true) (parts : List ContentPart) :
    convertMessagesToGenericFormat modelId [Message.assistant parts] =
      [convertAssistantGeneric false false true parts] ∧
    (∀ id name input, toolCallPartsOf parts = [(id, name, input)] →
      (convertAssistantGeneric false false true parts).toolCalls =
        some [⟨"FUNCTION", id, name, toolCallArgs input⟩]) ∧
    (2 ≤ (toolCallPartsOf parts).length →
      (convertAssistantGeneric false false true parts).toolCalls = none ∧
      ∃ t restC, (convertAssistantGeneric false false true parts).content =
          some (GenChatContent.text t :: restC) ∧
        (String.intercalate "\n" ((toolCallPartsOf parts).map fun c =>
          toolCallTextGoogle c.2.1 c.1 (toolCallArgs c.2.2))).data <:+ t.data) := by
  refine ⟨?_, ?_, ?_⟩
  · simp [convertMessagesToGenericFormat, google_not_xai modelId hG,
      google_not_llama modelId hG, hG]
  · intro id name input hone
    unfold convertAssistantGeneric
    rw [assistantAccParts_google, hone]
    simp
  · intro htwo
    unfold convertAssistantGeneric
    rw [assistantAccParts_google]
    have hne : ((toolCallPartsOf parts).map fun c =>
        GenToolCall.mk "FUNCTION" c.1 c.2.1 (toolCallArgs c.2.2)).length ≠ 1 := by
      simp only [List.length_map]
      omega
    have hgt : ((toolCallPartsOf parts).map fun c =>
        GenToolCall.mk "FUNCTION" c.1 c.2.1 (toolCallArgs c.2.2)).length > 1 := by
      simp only [List.length_map]
      omega
    simp only [Bool.false_or, Bool.false_and, Bool.true_and, if_neg, gt_iff_lt]
    rw [if_neg (by simpa using hne), if_pos (by simpa using hgt)]
    refine ⟨rfl, ?_⟩
    set joined := String.intercalate "\n" ((toolCallPartsOf parts).map fun c =>
      toolCallTextGoogle c.2.1 c.1 (toolCallArgs c.2.2)) with hjoined
    set content0 := parts.filterMap (fun p => match p with
      | ContentPart.text t => some (GenChatContent.text t)
      | _ => none) with hcontent0
    unfold mergeToolCallText
    match content0 with
    | GenChatContent.text t0 :: restC =>
        refine ⟨t0 ++ "\n" ++ joined, restC, rfl, ?_⟩
        rw [String.data_append]
        exact List.suffix_append _ _
    | [] => exact ⟨joined, [], rfl, List.suffix_refl _⟩
    | GenChatContent.image a b :: restC =>
        exact ⟨joined, _, rfl, List.suffix_refl _⟩
    | GenChatContent.toolCallContent a b c :: restC =>
        exact ⟨joined, _, rfl, List.suffix_refl _⟩

theorem claim_C5_witness :
    (convertAssistantGeneric false false true
        [ContentPart.toolCall "a" "f" (.obj []), ContentPart.toolCall "b" "g" (.obj [])]).toolCalls
      = none ∧
    (convertAssistantGeneric false false true
        [ContentPart.toolCall "a" "f" (.obj [])]).toolCalls
      = some [⟨"FUNCTION", "a", "f", toolCallArgs (.obj [])⟩] :=
  ⟨((claim_C5_google_parallel_tool_calls "google.gemini-2.5-flash" (by decide)
      [ContentPart.toolCall "a" "f" (.obj []), ContentPart.toolCall "b" "g" (.obj [])]).2.2
      (by decide)).1,
   (claim_C5_google_parallel_tool_calls "google.gemini-2.5-flash" (by decide)
      [ContentPart.toolCall "a" "f" (.obj [])]).2.1 "a" "f" (.obj []) (by decide)⟩

/-! ### Tool-call ordering (for C9 and C6) -/

def isSummary : StreamPart → Bool
  | .toolCallSummary _ _ _ => true
  | _ => false

/-- No `tool-call` summary event occurs in the list. -/
def noSummaries (l : List StreamPart) : Bool := l.all fun p => !(isSummary p)

/-- Every `tool-call` summary for id X is preceded by a `tool-input-end` for
X: whichever way the emitted sequence splits at a summary, the matching end
lies in the part already emitted. -/
def summariesPreceded (l : List StreamPart) : Prop :=
  ∀ (A : List StreamPart) (id name input : String) (B : List StreamPart),
    l = A ++ StreamPart.toolCallSummary id name input :: B →
    StreamPart.toolInputEnd id ∈ A

theorem noSummaries_append (l₁ l₂ : List StreamPart) :
    noSummaries (l₁ ++ l₂) = (noSummaries l₁ && noSummaries l₂) := by
  simp [noSummaries, List.all_append]

theorem summariesPreceded_of_noSummaries (l : List StreamPart)
    (h : noSummaries l = true) : summariesPreceded l := by
  intro A id name input B hsplit
  exfalso
  have : isSummary (StreamPart.toolCallSummary id name input) = false := by
    have hmem : StreamPart.toolCallSummary id name input ∈ l := by
      rw [hsplit]
      exact List.mem_append_right _ (List.mem_cons_self _ _)
    simpa [noSummaries] using List.all_eq_true.mp h _ hmem
  simp [isSummary] at this

theorem summariesPreceded_append (l₁ l₂ : List StreamPart)
    (h₁ : summariesPreceded l₁) (h₂ : summariesPreceded l₂) :
    summariesPreceded (l₁ ++ l₂) := by
  intro A id name input B hsplit
  rcases List.append_eq_append_iff.mp hsplit with ⟨a', ha, hb⟩ | ⟨c', hc, hd⟩
  · have := h₂ a' id name input B hb
    rw [ha]
    exact List.mem_append_right _ this
  · cases c' with
    | nil =>
        have := h₂ [] id name input B (by simpa using hd.symm)
        simp at this
    | cons x c'' =>
        rw [List.cons_append, List.cons_eq_cons] at hd
        obtain ⟨rfl, hB⟩ := hd
        exact h₁ A id name input c'' hc

/-- A block of non-summary parts followed by `tool-input-end id` and the
summary for `id` satisfies the ordering property. -/
theorem summariesPreceded_group (pre : List StreamPart) (id name input : String)
    (hpre : noSummaries pre = true) :
    summariesPreceded
      (pre ++ [StreamPart.toolInputEnd id, StreamPart.toolCallSummary id name input]) := by
  apply summariesPreceded_append _ _ (summariesPreceded_of_noSummaries _ hpre)
  intro A id' name' input' B hsplit
  cases A with
  | nil => simp at hsplit
  | cons a A' =>
      simp only [List.cons_append, List.cons_eq_cons] at hsplit
      obtain ⟨rfl, h2⟩ := hsplit
      cases A' with
      | nil =>
          simp only [List.nil_append, List.cons_eq_cons] at h2
          obtain ⟨h3, _⟩ := h2
          obtain ⟨rfl, -, -⟩ := StreamPart.toolCallSummary.inj h3
          exact List.mem_singleton_self _
      | cons a' A'' => simp at h2

/-- The tool-call flush groups of `sseFlush` satisfy the ordering. -/
theorem summariesPreceded_flushGroups (started : List String)
    (tcs : List (String × String × String)) :
    summariesPreceded (tcs.flatMap fun tc =>
      (if tc.1 ∈ started then [] else [StreamPart.toolInputStart tc.1 tc.2.1]) ++
      [StreamPart.toolInputEnd tc.1, StreamPart.toolCallSummary tc.1 tc.2.1 tc.2.2]) := by
  induction tcs with
  | nil =>
      apply summariesPreceded_of_noSummaries
      simp [noSummaries]
  | cons tc rest ih =>
      rw [List.flatMap_cons]
      apply summariesPreceded_append
      · apply summariesPreceded_group
        split <;> simp [noSummaries, isSummary]
      · exact ih

/-- The simulated-stream tool-call groups of `emitSimulated` satisfy the
ordering. -/
theorem summariesPreceded_simGroups (tcs : List (String × String × String)) :
    summariesPreceded (tcs.flatMap fun tc =>
      [StreamPart.toolInputStart tc.1 tc.2.1, StreamPart.toolInputDelta tc.1 tc.2.2,
       StreamPart.toolInputEnd tc.1, StreamPart.toolCallSummary tc.1 tc.2.1 tc.2.2]) := by
  induction tcs with
  | nil =>
      apply summariesPreceded_of_noSummaries
      simp [noSummaries]
  | cons tc rest ih =>
      rw [List.flatMap_cons]
      apply summariesPreceded_append
      · have := summariesPreceded_group
          [StreamPart.toolInputStart tc.1 tc.2.1, StreamPart.toolInputDelta tc.1 tc.2.2]
          tc.1 tc.2.1 tc.2.2 (by simp [noSummaries, isSummary])
        simpa using this
      · exact ih

/-! ### The SSE handlers never emit a summary mid-stream -/

theorem noSummaries_foldl {α : Type} (f : HAcc → α → HAcc)
    (hf : ∀ acc x, noSummaries acc.out = true → noSummaries (f acc x).out = true)
    (xs : List α) (acc : HAcc) (h : noSummaries acc.out = true) :
    noSummaries (xs.foldl f acc).out = true := by
  induction xs generalizing acc with
  | nil => simpa using h
  | cons x rest ih => exact ih _ (hf acc x h)

theorem noSummaries_emitTextDelta (tid : String) (snap : Bool) (s : String)
    (acc : HAcc) (h : noSummaries acc.out = true) :
    noSummaries (emitTextDelta tid snap s acc).out = true := by
  unfold emitTextDelta
  split <;> simp_all [noSummaries, isSummary]

theorem noSummaries_emitReasoningDelta (rid : String) (snap : Bool) (s : String)
    (acc : HAcc) (h : noSummaries acc.out = true) :
    noSummaries (emitReasoningDelta rid snap s acc).out = true := by
  unfold emitReasoningDelta
  split <;> simp_all [noSummaries, isSummary]

theorem noSummaries_registerToolCallAtomic (toolId toolName input : String)
    (acc : HAcc) (h : noSummaries acc.out = true) :
    noSummaries (registerToolCallAtomic toolId toolName input acc).out = true := by
  unfold registerToolCallAtomic
  split <;> simp_all [noSummaries, isSummary]

theorem noSummaries_setFinishReasonUpd (r : Json) (acc : HAcc)
    (h : noSummaries acc.out = true) :
    noSummaries (setFinishReasonUpd r acc).out = true := h

theorem noSummaries_updateUsage (p c : Option Json) (acc : HAcc)
    (h : noSummaries acc.out = true) :
    noSummaries (updateUsage p c acc).out = true := h

theorem noSummaries_out_set_st (acc : HAcc) (st' : StreamSt)
    (h : noSummaries acc.out = true) :
    noSummaries ({ acc with st := st' } : HAcc).out = true := h

theorem noSummaries_cohereContentPartStep (tid : String) (snap : Bool)
    (acc : HAcc) (part : Json) (h : noSummaries acc.out = true) :
    noSummaries (cohereContentPartStep tid snap acc part).out = true := by
  simp only [cohereContentPartStep]
  repeat' split
  all_goals
    first
      | exact h
      | exact noSummaries_emitTextDelta _ _ _ _ h
      | (apply noSummaries_registerToolCallAtomic
         apply noSummaries_out_set_st
         first
           | exact h
           | exact noSummaries_emitTextDelta _ _ _ _ h)

theorem noSummaries_cohereMsgToolCallStep (acc : HAcc) (tc : Json)
    (h : noSummaries acc.out = true) :
    noSummaries (cohereMsgToolCallStep acc tc).out = true := by
  simp only [cohereMsgToolCallStep]
  apply noSummaries_registerToolCallAtomic
  exact noSummaries_out_set_st _ _ h

theorem noSummaries_cohereRespToolCallStep (acc : HAcc) (tc : Json)
    (h : noSummaries acc.out = true) :
    noSummaries (cohereRespToolCallStep acc tc).out = true := by
  simp only [cohereRespToolCallStep]
  exact noSummaries_out_set_st _ _ h

theorem noSummaries_push_upd (acc : HAcc) (l : List StreamPart) (u : FlagUpdates)
    (hl : noSummaries l = true) (h : noSummaries acc.out = true) :
    noSummaries ({ acc with out := acc.out ++ l, upd := u } : HAcc).out = true := by
  simp [noSummaries_append, h, hl]

theorem noSummaries_push_st (acc : HAcc) (l : List StreamPart) (st' : StreamSt)
    (hl : noSummaries l = true) (h : noSummaries acc.out = true) :
    noSummaries ({ acc with out := acc.out ++ l, st := st' } : HAcc).out = true := by
  simp [noSummaries_append, h, hl]

theorem noSummaries_push2_st (acc : HAcc) (l₁ l₂ : List StreamPart) (st' : StreamSt)
    (h₁ : noSummaries l₁ = true) (h₂ : noSummaries l₂ = true)
    (h : noSummaries acc.out = true) :
    noSummaries ({ acc with out := acc.out ++ l₁ ++ l₂, st := st' } : HAcc).out = true := by
  simp [noSummaries_append, h, h₁, h₂]

theorem noSummaries_cohereCaseContentStart (tid : String) (ts : Bool) (acc : HAcc)
    (h : noSummaries acc.out = true) :
    noSummaries (cohereCaseContentStart tid ts acc).out = true := by
  simp only [cohereCaseContentStart]
  split
  · (refine noSummaries_push_upd _ _ _ ?_ h; simp [noSummaries, isSummary])
  · exact h

theorem noSummaries_cohereCaseContentDelta (event : Json) (tid : String) (ts : Bool)
    (acc : HAcc) (h : noSummaries acc.out = true) :
    noSummaries (cohereCaseContentDelta event tid ts acc).out = true := by
  simp only [cohereCaseContentDelta]
  split
  · exact noSummaries_emitTextDelta _ _ _ _ h
  · exact h

theorem noSummaries_cohereCaseContentEnd (tid : String) (ts : Bool) (acc : HAcc)
    (h : noSummaries acc.out = true) :
    noSummaries (cohereCaseContentEnd tid ts acc).out = true := by
  simp only [cohereCaseContentEnd]
  split
  · (refine noSummaries_push_upd _ _ _ ?_ h; simp [noSummaries, isSummary])
  · exact h

theorem noSummaries_cohereCaseReasoningStart (rid : String) (rs : Bool) (acc : HAcc)
    (h : noSummaries acc.out = true) :
    noSummaries (cohereCaseReasoningStart rid rs acc).out = true := by
  simp only [cohereCaseReasoningStart]
  split
  · (refine noSummaries_push_upd _ _ _ ?_ h; simp [noSummaries, isSummary])
  · exact h

theorem noSummaries_cohereCaseReasoningDelta (event : Json) (rid : String) (rs : Bool)
    (acc : HAcc) (h : noSummaries acc.out = true) :
    noSummaries (cohereCaseReasoningDelta event rid rs acc).out = true := by
  simp only [cohereCaseReasoningDelta]
  split
  · exact noSummaries_emitReasoningDelta _ _ _ _ h
  · exact h

theorem noSummaries_cohereCaseReasoningEnd (rid : String) (rs : Bool) (acc : HAcc)
    (h : noSummaries acc.out = true) :
    noSummaries (cohereCaseReasoningEnd rid rs acc).out = true := by
  simp only [cohereCaseReasoningEnd]
  split
  · (refine noSummaries_push_upd _ _ _ ?_ h; simp [noSummaries, isSummary])
  · exact h

theorem noSummaries_cohereCaseToolPlanDelta (event : Json) (rid : String) (rs : Bool)
    (acc : HAcc) (h : noSummaries acc.out = true) :
    noSummaries (cohereCaseToolPlanDelta event rid rs acc).out = true := by
  simp only [cohereCaseToolPlanDelta]
  split
  · exact noSummaries_emitReasoningDelta _ _ _ _ h
  · exact h

theorem noSummaries_cohereCaseToolCallStart (event : Json) (acc : HAcc)
    (h : noSummaries acc.out = true) :
    noSummaries (cohereCaseToolCallStart event acc).out = true := by
  simp only [cohereCaseToolCallStart]
  repeat' split
  all_goals first
    | exact h
    | (refine noSummaries_push_st _ _ _ ?_ h; simp [noSummaries, isSummary])

theorem noSummaries_cohereCaseToolCallDelta (event : Json) (acc : HAcc)
    (h : noSummaries acc.out = true) :
    noSummaries (cohereCaseToolCallDelta event acc).out = true := by
  simp only [cohereCaseToolCallDelta]
  repeat' split
  all_goals first
    | exact h
    | (refine noSummaries_push_st _ _ _ ?_ h; simp [noSummaries, isSummary])

theorem noSummaries_cohereCaseMessageEnd (event : Json) (acc : HAcc)
    (h : noSummaries acc.out = true) :
    noSummaries (cohereCaseMessageEnd event acc).out = true := by
  simp only [cohereCaseMessageEnd]
  repeat' split
  all_goals exact h

theorem noSummaries_cohereCaseDefault (event : Json) (tid : String) (ts : Bool)
    (acc : HAcc) (h : noSummaries acc.out = true) :
    noSummaries (cohereCaseDefault event tid ts acc).out = true := by
  simp only [cohereCaseDefault]
  repeat' split
  all_goals first
    | exact h
    | (refine noSummaries_push_upd _ _ _ ?_ h; simp [noSummaries, isSummary])
    | (apply noSummaries_foldl _ noSummaries_cohereRespToolCallStep
       first
         | exact h
         | (refine noSummaries_push_upd _ _ _ ?_ h; simp [noSummaries, isSummary]))

theorem noSummaries_cohereSwitch (event : Json) (tid rid : String)
    (ts rs : Bool) (acc : HAcc) (h : noSummaries acc.out = true) :
    noSummaries (cohereSwitch event tid rid ts rs acc).out = true := by
  simp only [cohereSwitch]
  generalize Json.truthyStr? (Json.jsOrChain [event.get? "type", event.get? "eventType"]) = et
  by_cases h1 : et = some "message-start"
  · rw [if_pos h1]; exact h
  rw [if_neg h1]
  by_cases h2 : et = some "content-start"
  · rw [if_pos h2]; exact noSummaries_cohereCaseContentStart _ _ _ h
  rw [if_neg h2]
  by_cases h3 : et = some "content-delta"
  · rw [if_pos h3]; exact noSummaries_cohereCaseContentDelta _ _ _ _ h
  rw [if_neg h3]
  by_cases h4 : et = some "content-end"
  · rw [if_pos h4]; exact noSummaries_cohereCaseContentEnd _ _ _ h
  rw [if_neg h4]
  by_cases h5 : et = some "thinking-start" ∨ et = some "reasoning-start"
  · rw [if_pos h5]; exact noSummaries_cohereCaseReasoningStart _ _ _ h
  rw [if_neg h5]
  by_cases h6 : et = some "thinking-delta" ∨ et = some "reasoning-delta"
  · rw [if_pos h6]; exact noSummaries_cohereCaseReasoningDelta _ _ _ _ h
  rw [if_neg h6]
  by_cases h7 : et = some "thinking-end" ∨ et = some "reasoning-end"
  · rw [if_pos h7]; exact noSummaries_cohereCaseReasoningEnd _ _ _ h
  rw [if_neg h7]
  by_cases h8 : et = some "tool-plan-delta"
  · rw [if_pos h8]; exact noSummaries_cohereCaseToolPlanDelta _ _ _ _ h
  rw [if_neg h8]
  by_cases h9 : et = some "tool-call-start"
  · rw [if_pos h9]; exact noSummaries_cohereCaseToolCallStart _ _ h
  rw [if_neg h9]
  by_cases h10 : et = some "tool-call-delta"
  · rw [if_pos h10]; exact noSummaries_cohereCaseToolCallDelta _ _ h
  rw [if_neg h10]
  by_cases h11 : et = some "tool-call-end"
  · rw [if_pos h11]; exact h
  rw [if_neg h11]
  by_cases h12 : et = some "message-end"
  · rw [if_pos h12]; exact noSummaries_cohereCaseMessageEnd _ _ h
  rw [if_neg h12]
  exact noSummaries_cohereCaseDefault _ _ _ _ h

theorem noSummaries_genericContentPartStep (tid : String) (snap : Bool)
    (acc : HAcc) (part : Json) (h : noSummaries acc.out = true) :
    noSummaries (genericContentPartStep tid snap acc part).out = true := by
  simp only [genericContentPartStep]
  repeat' split
  all_goals
    first
      | exact h
      | exact noSummaries_emitTextDelta _ _ _ _ h
      | (apply noSummaries_registerToolCallAtomic
         apply noSummaries_out_set_st
         first
           | exact h
           | exact noSummaries_emitTextDelta _ _ _ _ h)

theorem noSummaries_genericMsgToolCallStep (acc : HAcc) (tc : Json)
    (h : noSummaries acc.out = true) :
    noSummaries (genericMsgToolCallStep acc tc).out = true := by
  simp only [genericMsgToolCallStep]
  repeat' split
  all_goals
    exact noSummaries_registerToolCallAtomic _ _ _ _ (noSummaries_out_set_st _ _ h)

theorem noSummaries_genericChoiceToolCallStep (acc : HAcc) (tc : Json)
    (h : noSummaries acc.out = true) :
    noSummaries (genericChoiceToolCallStep acc tc).out = true := by
  simp only [genericChoiceToolCallStep]
  repeat' split
  all_goals first
    | exact h
    | (refine noSummaries_push2_st _ _ _ _ ?_ ?_ h <;> simp [noSummaries, isSummary])

theorem noSummaries_genericChoiceContentStep (tid : String) (snap : Bool)
    (a : HAcc) (part : Json) (h : noSummaries a.out = true) :
    noSummaries (genericChoiceContentStep tid snap a part).out = true := by
  simp only [genericChoiceContentStep]
  repeat' split
  all_goals first
    | exact h
    | exact noSummaries_emitTextDelta _ _ _ _ h

theorem noSummaries_genericMsgContentPhase (tid : String) (snap : Bool)
    (event : Json) (acc : HAcc) (h : noSummaries acc.out = true) :
    noSummaries (genericMsgContentPhase tid snap event acc).out = true := by
  simp only [genericMsgContentPhase]
  split
  · exact noSummaries_foldl _
      (fun a x hx => noSummaries_genericContentPartStep _ _ a x hx) _ _ h
  · exact h

theorem noSummaries_genericMsgToolCallsPhase (event : Json) (acc : HAcc)
    (h : noSummaries acc.out = true) :
    noSummaries (genericMsgToolCallsPhase event acc).out = true := by
  simp only [genericMsgToolCallsPhase]
  split
  · exact noSummaries_foldl _
      (fun a x hx => noSummaries_genericMsgToolCallStep a x hx) _ _ h
  · exact h

theorem noSummaries_genericFinishPhase (event : Json) (acc : HAcc)
    (h : noSummaries acc.out = true) :
    noSummaries (genericFinishPhase event acc).out = true := by
  simp only [genericFinishPhase]
  repeat' split
  all_goals exact h

theorem noSummaries_genericUsagePhase (event : Json) (acc : HAcc)
    (h : noSummaries acc.out = true) :
    noSummaries (genericUsagePhase event acc).out = true := by
  simp only [genericUsagePhase]
  repeat' split
  all_goals exact h

theorem noSummaries_choiceDeltaContentPhase (tid : String) (snap : Bool)
    (delta : Option Json) (acc : HAcc) (h : noSummaries acc.out = true) :
    noSummaries (choiceDeltaContentPhase tid snap delta acc).out = true := by
  simp only [choiceDeltaContentPhase]
  repeat' split
  all_goals first
    | exact h
    | exact noSummaries_emitTextDelta _ _ _ _ h
    | exact noSummaries_foldl _
        (fun a x hx => noSummaries_genericChoiceContentStep _ _ a x hx) _ _ h

theorem noSummaries_choiceReasoningPhase (p : SWEPreset) (rid : String) (rs : Bool)
    (delta : Option Json) (acc : HAcc) (h : noSummaries acc.out = true) :
    noSummaries (choiceReasoningPhase p rid rs delta acc).out = true := by
  simp only [choiceReasoningPhase]
  repeat' split
  all_goals first
    | exact h
    | exact noSummaries_emitReasoningDelta _ _ _ _ h

theorem noSummaries_choiceToolCallsPhase (delta : Option Json) (acc : HAcc)
    (h : noSummaries acc.out = true) :
    noSummaries (choiceToolCallsPhase delta acc).out = true := by
  simp only [choiceToolCallsPhase]
  repeat' split
  all_goals first
    | exact h
    | exact noSummaries_genericChoiceToolCallStep _ _ h
    | exact noSummaries_foldl _
        (fun a x hx => noSummaries_genericChoiceToolCallStep a x hx) _ _ h

theorem noSummaries_choiceFinishPhase (choice : Json) (acc : HAcc)
    (h : noSummaries acc.out = true) :
    noSummaries (choiceFinishPhase choice acc).out = true := by
  simp only [choiceFinishPhase]
  repeat' split
  all_goals exact h

theorem noSummaries_genericChoicePhase (p : SWEPreset) (tid rid : String)
    (ts rs : Bool) (event : Json) (acc : HAcc) (h : noSummaries acc.out = true) :
    noSummaries (genericChoicePhase p tid rid ts rs event acc).out = true := by
  simp only [genericChoicePhase]
  repeat' split
  all_goals first
    | exact h
    | exact noSummaries_choiceFinishPhase _ _
        (noSummaries_choiceToolCallsPhase _ _
          (noSummaries_choiceReasoningPhase _ _ _ _ _
            (noSummaries_choiceDeltaContentPhase _ _ _ _ h)))

theorem noSummaries_genericTrailingUsagePhase (event : Json) (acc : HAcc)
    (h : noSummaries acc.out = true) :
    noSummaries (genericTrailingUsagePhase event acc).out = true := by
  simp only [genericTrailingUsagePhase]
  repeat' split
  all_goals exact h

theorem noSummaries_handleGenericSSEEvent (p : SWEPreset) (event : Json)
    (tid rid : String) (ts rs : Bool) (st : StreamSt) :
    noSummaries (handleGenericSSEEvent p event tid rid ts rs st).out = true := by
  simp only [handleGenericSSEEvent]
  exact noSummaries_genericTrailingUsagePhase _ _
    (noSummaries_genericChoicePhase _ _ _ _ _ _ _
      (noSummaries_genericUsagePhase _ _
        (noSummaries_genericFinishPhase _ _
          (noSummaries_genericMsgToolCallsPhase _ _
            (noSummaries_genericMsgContentPhase _ _ _ _ rfl)))))

theorem noSummaries_handleCohereSSEEvent (event : Json) (tid rid : String)
    (ts rs : Bool) (st : StreamSt) :
    noSummaries (handleCohereSSEEvent event tid rid ts rs st).out = true := by
  simp only [handleCohereSSEEvent]
  apply noSummaries_cohereSwitch
  repeat' split
  all_goals
    repeat
      first
        | rfl
        | apply noSummaries_foldl _ (fun a x hx => noSummaries_cohereMsgToolCallStep a x hx)
        | apply noSummaries_foldl _ (fun a x hx => noSummaries_cohereContentPartStep _ _ a x hx)

theorem noSummaries_sseStep (fam : ModelFamily) (p : SWEPreset) (tid rid : String)
    (acc : SSEAcc) (event : Json) (h : noSummaries acc.out = true) :
    noSummaries (sseStep fam p tid rid acc event).out = true := by
  cases fam
  case cohere =>
    show noSummaries (acc.out ++
      (handleCohereSSEEvent event tid rid acc.textStarted acc.reasoningStarted acc.st).out) = true
    rw [noSummaries_append, h, noSummaries_handleCohereSSEEvent]
    rfl
  case cohereV2 =>
    show noSummaries (acc.out ++
      (handleCohereSSEEvent event tid rid acc.textStarted acc.reasoningStarted acc.st).out) = true
    rw [noSummaries_append, h, noSummaries_handleCohereSSEEvent]
    rfl
  case generic =>
    show noSummaries (acc.out ++
      (handleGenericSSEEvent p event tid rid acc.textStarted acc.reasoningStarted acc.st).out) = true
    rw [noSummaries_append, h, noSummaries_handleGenericSSEEvent]
    rfl

theorem noSummaries_sseFold (fam : ModelFamily) (p : SWEPreset) (tid rid : String)
    (events : List Json) (acc : SSEAcc) (h : noSummaries acc.out = true) :
    noSummaries ((events.foldl (sseStep fam p tid rid) acc).out) = true := by
  induction events generalizing acc with
  | nil => simpa using h
  | cons e rest ih => exact ih _ (noSummaries_sseStep _ _ _ _ _ _ h)

/-- The end-of-stream flush keeps every summary after its input-end. -/
theorem summariesPreceded_sseFlush (tid rid : String) (acc : SSEAcc) :
    summariesPreceded (sseFlush tid rid acc) := by
  unfold sseFlush
  apply summariesPreceded_append
  · apply summariesPreceded_append
    · apply summariesPreceded_of_noSummaries
      simp only [noSummaries_append, Bool.and_eq_true]
      constructor <;> (split <;> rfl)
    · exact summariesPreceded_flushGroups _ _
  · apply summariesPreceded_of_noSummaries
    rfl

/-- The whole streaming output keeps every summary after its input-end. -/
theorem summariesPreceded_handleSSEStream (fam : ModelFamily) (p : SWEPreset)
    (tid rid : String) (events : List Json) :
    summariesPreceded (handleSSEStream fam p tid rid events) := by
  unfold handleSSEStream
  apply summariesPreceded_append
  · exact summariesPreceded_of_noSummaries _ (noSummaries_sseFold _ _ _ _ _ _ rfl)
  · exact summariesPreceded_sseFlush _ _ _

/-- The simulated stream keeps every summary after its input-end. -/
theorem summariesPreceded_emitSimulated (r : NormResult) (tid rid : String) :
    summariesPreceded (emitSimulated r tid rid) := by
  unfold emitSimulated
  apply summariesPreceded_append
  · apply summariesPreceded_append
    · apply summariesPreceded_of_noSummaries
      simp only [noSummaries_append, Bool.and_eq_true]
      constructor <;> (split <;> simp [noSummaries, isSummary])
    · exact summariesPreceded_simGroups _
  · apply summariesPreceded_of_noSummaries
    rfl

/-- C9: in every emitted stream-event sequence — the SSE parsing path and the
simulated-stream path for non-streaming responses — the canonical `tool-call`
summary event for an id X is never emitted before the `tool-input-end` event
for X: wherever the output splits at a summary for X, a `tool-input-end` for X
already occurs in the prefix. -/
theorem claim_C9_summary_after_input_end :
    (∀ (modelFamily : ModelFamily) (swePreset : SWEPreset)
       (textId reasoningId : String) (events : List Json),
       summariesPreceded (handleSSEStream modelFamily swePreset textId reasoningId events)) ∧
    (∀ (modelFamily : ModelFamily) (swePreset : SWEPreset) (chatResult : Json)
       (textId reasoningId : String) (counter : Nat),
       summariesPreceded (handleNonStreamingResponse modelFamily swePreset chatResult
         textId reasoningId counter)) := by
  constructor
  · intro fam p tid rid events
    exact summariesPreceded_handleSSEStream fam p tid rid events
  · intro fam p chatResult tid rid counter
    unfold handleNonStreamingResponse
    exact summariesPreceded_emitSimulated _ _ _

/-- A generic-family non-streaming response whose single content part is a
tool call and whose raw vendor finish code is `COMPLETE`. -/
def c6ToolCallResponse : Json :=
  .obj [("chatResponse", .obj
    [("choices", .arr [.obj
       [("message", .obj
          [("content", .arr [.obj
             [("type", .str "TOOL_CALL"),
              ("id", .str "call_1"),
              ("name", .str "get_weather")]])]),
        ("finishReason", .str "COMPLETE")]]),
     ("usage", .obj
       [("promptTokens", .num 10), ("completionTokens", .num 5)])])]

/-- C6: the spec demands a `tool-calls` finish reason whenever tool calls are
present, regardless of the raw vendor code.  The end-of-stream flush does obey
this (first conjunct), but the generic simulated-stream branch does not: on a
response carrying one tool call and raw finish code `COMPLETE` it emits the
tool-call summary and then a finish event with reason `stop` (second
conjunct). -/
theorem claim_C6_tool_calls_finish_override :
    (∀ (textId reasoningId : String) (acc : SSEAcc), 0 < acc.st.toolCalls.length →
        StreamPart.finish .toolCalls
            (createUsage (some acc.promptTokens) (some acc.completionTokens)) ∈
          sseFlush textId reasoningId acc) ∧
    handleNonStreamingResponse .generic (getSWEPreset "meta.llama-3.3-70b-instruct")
        c6ToolCallResponse "t" "r" 0 =
      [.toolInputStart "call_1" "get_weather",
       .toolInputDelta "call_1" "\x7b\x7d",
       .toolInputEnd "call_1",
       .toolCallSummary "call_1" "get_weather" "\x7b\x7d",
       .finish .stop (createUsage (some 10) (some 5))] := by
  constructor
  · intro tid rid acc hlen
    unfold sseFlush
    have hif : (if acc.st.toolCalls.length > 0 then FinishReason.toolCalls
        else acc.finishReason) = FinishReason.toolCalls := if_pos hlen
    rw [hif]
    simp
  · rfl

end OCIProvider
